import Mathlib

/-!
Verification development for the `video-to-post` repository.

The TypeScript sources are shallowly embedded in Lean 4.  JavaScript
numbers are idealized as exact rationals (`ℚ`); the special value `NaN`
(produced e.g. by reading out of the bounds of a `Buffer`, or by `0/0`)
is modelled by `none` in `Option ℚ`, and all arithmetic on `Option ℚ`
propagates `none` exactly as JavaScript arithmetic propagates `NaN`.
`Math.sqrt` is modelled by `Real.sqrt`; where a loop only *compares*
square roots of nonnegative accumulators, the comparison is performed on
the radicands, which is equivalent because `Real.sqrt` is strictly
monotone on nonnegative arguments (lemma `sqrt_lt_sqrt_iff_of_nonneg`
below) and maps `NaN` to `NaN` in JavaScript.
-/

namespace VideoToPost

/-! ### JavaScript number arithmetic on `Option ℚ` (`none` = NaN) -/

/-- JavaScript addition: `NaN` propagates. -/
def jsAdd (a b : Option ℚ) : Option ℚ :=
  match a, b with
  | some x, some y => some (x + y)
  | _, _ => none

/-- JavaScript multiplication: `NaN` propagates. -/
def jsMul (a b : Option ℚ) : Option ℚ :=
  match a, b with
  | some x, some y => some (x * y)
  | _, _ => none

/-- JavaScript division restricted to the use sites of this development,
where the numerator is `0` whenever the denominator is `0` (so a zero
denominator yields `NaN = 0/0`, never an infinity). -/
def jsDiv (a b : Option ℚ) : Option ℚ :=
  match a, b with
  | some x, some y => if y = 0 then none else some (x / y)
  | _, _ => none

/-- JavaScript `>` on numbers: any comparison involving `NaN` is false. -/
def jsGt (a b : Option ℚ) : Bool :=
  match a, b with
  | some x, some y => decide (y < x)
  | _, _ => false

theorem jsAdd_none_left (b : Option ℚ) : jsAdd none b = none := rfl

theorem jsAdd_none_right (a : Option ℚ) : jsAdd a none = none := by
  cases a <;> rfl

theorem jsGt_none_left (b : Option ℚ) : jsGt none b = false := rfl

/-- `Real.sqrt` is strictly monotone on nonnegative arguments, so the
frame-selection loops below may compare radicands instead of square
roots. -/
theorem sqrt_lt_sqrt_iff_of_nonneg {a b : ℝ} (ha : 0 ≤ a) (_hb : 0 ≤ b) :
    Real.sqrt a < Real.sqrt b ↔ a < b := by
  constructor
  · intro h
    by_contra hle
    exact absurd (Real.sqrt_le_sqrt (not_lt.mp hle)) (not_le.mpr h)
  · intro h
    exact (Real.sqrt_lt_sqrt ha h)

/-! ### `extract-frames.ts`

`secondsToTimecode` encodes a second offset as zero-padded `HH_MM_SS`
with `Math.floor` truncation; `extractFrames` computes
`fps = targetFrames / duration`, `interval = duration / targetFrames`,
invokes `ffmpeg` (with no validation of its inputs), and then renames
the `count` emitted temporary files to `frame_<timecode>.jpg` where the
`i`-th timecode encodes the nominal offset `i * interval`. -/

/-- JavaScript truncation toward zero (used by the `%` operator). -/
def jsTrunc (q : ℚ) : ℤ :=
  if 0 ≤ q then ⌊q⌋ else -⌊-q⌋

/-- JavaScript `%` (floating-point remainder, sign of the dividend) for a
nonzero divisor. -/
def jsFmod (a b : ℚ) : ℚ :=
  a - b * jsTrunc (a / b)

/-- `String.padStart(n, "0")`. -/
def padStartZeros (n : ℕ) (s : String) : String :=
  if s.length ≥ n then s else String.mk (List.replicate (n - s.length) '0') ++ s

/-- `String.padStart(2, "0")`. -/
def padStart2 (s : String) : String := padStartZeros 2 s

/-- `secondsToTimecode` from `extract-frames.ts`:
`h = Math.floor(seconds / 3600)`, `m = Math.floor((seconds % 3600) / 60)`,
`s = Math.floor(seconds % 60)`, each rendered zero-padded to two digits
and joined with underscores. -/
def secondsToTimecode (seconds : ℚ) : String :=
  let h : ℤ := ⌊seconds / 3600⌋
  let m : ℤ := ⌊jsFmod seconds 3600 / 60⌋
  let s : ℤ := ⌊jsFmod seconds 60⌋
  padStart2 (toString h) ++ "_" ++ padStart2 (toString m) ++ "_" ++ padStart2 (toString s)

/-- `fps = targetFrames / duration` from `extractFrames`. -/
def extractFps (targetFrames duration : ℚ) : ℚ := targetFrames / duration

/-- `interval = duration / targetFrames` from `extractFrames`. -/
def extractInterval (targetFrames duration : ℚ) : ℚ := duration / targetFrames

/-- Nominal offset of the `i`-th emitted frame: `seconds = i * interval`. -/
def nominalOffset (i : ℕ) (interval : ℚ) : ℚ := (i : ℚ) * interval

/-- Destination path of the `i`-th rename:
`join(outputDir, "frame_" + timecode + ".jpg")`. -/
def renameDest (outputDir : String) (interval : ℚ) (i : ℕ) : String :=
  outputDir ++ "/frame_" ++ secondsToTimecode (nominalOffset i interval) ++ ".jpg"

/-- The list `files` returned by `extractFrames`: the `i`-th entry is the
destination path of the `i`-th temporary frame, for `i = 0..count-1` in
sequence order. -/
def extractedFiles (outputDir : String) (interval : ℚ) (count : ℕ) : List String :=
  (List.range count).map (renameDest outputDir interval)

/-- State of the output directory after the rename loop: the path `p`
holds the content of temporary frame `i` where `i` is the *last* index
renamed onto `p` (`renameSync` overwrites an existing destination). -/
def finalDirEntry (outputDir : String) (interval : ℚ) (count : ℕ) (p : String) : Option ℕ :=
  (List.range count).foldl (fun acc i => if renameDest outputDir interval i = p then some i else acc) none

/-- External invocations performed by `extractFrames`, in program order.
The `ffmpeg` constructor records the `fps` filter value passed to the
decoder (`none` stands for the non-finite value produced when
`duration = 0`). -/
inductive ExtCall where
  | mkdir (dir : String)
  | ffprobe (video : String)
  | ffmpeg (video : String) (fps : Option ℚ)
  | rename (src dst : String)
deriving DecidableEq

/-- Division producing `none` for a zero denominator (JavaScript would
produce a non-finite number there). -/
def jsDivTotal (a b : ℚ) : Option ℚ :=
  if b = 0 then none else some (a / b)

/-- The sequence of external calls made by `extractFrames
(videoPath, outputDir, targetFrames)` when the probe reports `duration`
and the decoder emits `count` temporary frames.  The source performs no
validation whatsoever: `mkdirSync`, the probe, and the `ffmpeg`
invocation happen unconditionally, then the rename loop runs. -/
def extractFramesCalls (videoPath outputDir : String) (duration targetFrames : ℚ)
    (count : ℕ) : List ExtCall :=
  [ExtCall.mkdir outputDir, ExtCall.ffprobe videoPath,
   ExtCall.ffmpeg videoPath (jsDivTotal targetFrames duration)] ++
  (List.range count).map (fun i =>
    ExtCall.rename (outputDir ++ "/temp_" ++ padStartZeros 4 (toString (i + 1)) ++ ".jpg")
      (renameDest outputDir (extractInterval targetFrames duration) i))

/-- Timecode rendering from an integer number of seconds; used to
evaluate `secondsToTimecode` on nonnegative inputs. -/
def timecodeOfInt (k : ℤ) : String :=
  padStart2 (toString (k / 3600)) ++ "_" ++ padStart2 (toString (k % 3600 / 60)) ++ "_" ++
    padStart2 (toString (k % 60))

theorem floor_div_nat_int (a : ℚ) (n : ℕ) (ha : 0 ≤ a) :
    ⌊a / (n : ℚ)⌋ = ⌊a⌋ / (n : ℤ) := by
  have hdiv : (0:ℚ) ≤ a / (n:ℚ) := div_nonneg ha (by positivity)
  rw [← Int.natCast_floor_eq_floor hdiv, ← Int.natCast_floor_eq_floor ha,
    Nat.floor_div_nat a n]
  exact_mod_cast rfl

theorem jsFmod_nonneg_eq (a : ℚ) (n : ℕ) (ha : 0 ≤ a) :
    jsFmod a (n : ℚ) = a - (n : ℚ) * (⌊a⌋ / (n : ℤ) : ℤ) := by
  unfold jsFmod jsTrunc
  rw [if_pos (div_nonneg ha (by positivity)), floor_div_nat_int a n ha]

theorem jsFmod_nonneg (a : ℚ) (n : ℕ) (ha : 0 ≤ a) (hn : 0 < n) :
    0 ≤ jsFmod a (n : ℚ) := by
  rw [jsFmod_nonneg_eq a n ha, sub_nonneg]
  have hne : ((n : ℤ)) ≠ 0 := by exact_mod_cast hn.ne.symm
  have h0 : (⌊a⌋ / (n : ℤ)) * (n : ℤ) ≤ ⌊a⌋ := Int.ediv_mul_le ⌊a⌋ hne
  have h1 : ((⌊a⌋ / (n : ℤ) * (n : ℤ) : ℤ) : ℚ) ≤ (⌊a⌋ : ℚ) := by exact_mod_cast h0
  calc ((n : ℚ) * (⌊a⌋ / (n : ℤ) : ℤ)) = ((⌊a⌋ / (n : ℤ) * (n : ℤ) : ℤ) : ℚ) := by
        push_cast; ring
  _ ≤ (⌊a⌋ : ℚ) := h1
  _ ≤ a := Int.floor_le a

theorem floor_jsFmod (a : ℚ) (n : ℕ) (ha : 0 ≤ a) :
    ⌊jsFmod a (n : ℚ)⌋ = ⌊a⌋ % (n : ℤ) := by
  rw [jsFmod_nonneg_eq a n ha]
  have h : (n : ℚ) * (⌊a⌋ / (n : ℤ) : ℤ) = ((n * (⌊a⌋ / (n : ℤ)) : ℤ) : ℚ) := by push_cast; ring
  rw [h, Int.floor_sub_int, Int.emod_def]

/-- On nonnegative inputs `secondsToTimecode` depends only on the
integer part of the offset, and equals the pure-integer rendering. -/
theorem secondsToTimecode_nonneg (a : ℚ) (ha : 0 ≤ a) :
    secondsToTimecode a = timecodeOfInt ⌊a⌋ := by
  unfold secondsToTimecode timecodeOfInt
  have h3600 : ((3600 : ℚ)) = ((3600 : ℕ) : ℚ) := by norm_num
  have h60 : ((60 : ℚ)) = ((60 : ℕ) : ℚ) := by norm_num
  have e1 : ⌊a / 3600⌋ = ⌊a⌋ / (3600 : ℤ) := by
    rw [h3600, floor_div_nat_int a 3600 ha]; norm_num
  have e2 : ⌊jsFmod a 3600 / 60⌋ = ⌊a⌋ % 3600 / 60 := by
    rw [h3600, h60, floor_div_nat_int (jsFmod a ((3600:ℕ):ℚ)) 60
      (jsFmod_nonneg a 3600 ha (by norm_num)), floor_jsFmod a 3600 ha]
    norm_num
  have e3 : ⌊jsFmod a 60⌋ = ⌊a⌋ % 60 := by
    rw [h60, floor_jsFmod a 60 ha]; norm_num
  rw [e1, e2, e3]

theorem renameDest_congr (outputDir : String) (interval : ℚ) (i j : ℕ)
    (h : secondsToTimecode (nominalOffset i interval) =
      secondsToTimecode (nominalOffset j interval)) :
    renameDest outputDir interval i = renameDest outputDir interval j := by
  unfold renameDest
  rw [h]

theorem foldl_lastMatch (f : ℕ → String) (p : String) :
    ∀ n j : ℕ, j < n → f j = p →
      ∃ k, (List.range n).foldl (fun acc i => if f i = p then some i else acc) none = some k ∧
        j ≤ k ∧ k < n ∧ f k = p := by
  intro n
  induction n with
  | zero => intro j hj _hp; omega
  | succ n ih =>
    intro j hj hpj
    rw [List.range_succ, List.foldl_append]
    by_cases hn : f n = p
    · refine ⟨n, ?_, by omega, by omega, hn⟩
      simp [hn]
    · have hjn : j ≠ n := by
        intro hEq; exact hn (hEq ▸ hpj)
      obtain ⟨k, hk, hjk, hkn, hfk⟩ := ih j (by omega) hpj
      refine ⟨k, ?_, hjk, by omega, hfk⟩
      simp [hn, hk]

/-- C2: for duration D > 0 and target count N > 0 the extractor derives
`fps = N/D` and `interval = D/N`; the i-th emitted frame gets nominal
offset `i·interval`, the offsets are strictly increasing and evenly
spaced by `interval`; and for D=120, N=4 the offsets 0,30,60,90 are
encoded as the ids `00_00_00`, `00_00_30`, `00_01_00`, `00_01_30`. -/
theorem extract_frames_cadence (duration targetFrames : ℚ)
    (hD : 0 < duration) (hN : 0 < targetFrames) :
    extractFps targetFrames duration = targetFrames / duration ∧
    extractInterval targetFrames duration = duration / targetFrames ∧
    (∀ i j : ℕ, i < j →
      nominalOffset i (extractInterval targetFrames duration) <
        nominalOffset j (extractInterval targetFrames duration)) ∧
    (∀ i : ℕ, nominalOffset (i + 1) (extractInterval targetFrames duration) -
        nominalOffset i (extractInterval targetFrames duration) =
      extractInterval targetFrames duration) ∧
    extractInterval 4 120 = 30 ∧ extractFps 4 120 = 1 / 30 ∧
    extractedFiles "out" (extractInterval 4 120) 4 =
      ["out/frame_00_00_00.jpg", "out/frame_00_00_30.jpg",
       "out/frame_00_01_00.jpg", "out/frame_00_01_30.jpg"] := by
  have hpos : 0 < duration / targetFrames := div_pos hD hN
  refine ⟨rfl, rfl, ?_, ?_, by norm_num [extractInterval], by norm_num [extractFps], ?_⟩
  · intro i j hij
    unfold nominalOffset extractInterval
    exact mul_lt_mul_of_pos_right (by exact_mod_cast hij) hpos
  · intro i
    unfold nominalOffset extractInterval
    push_cast
    ring
  · rw [show extractInterval 4 120 = 30 by norm_num [extractInterval]]
    have e : ∀ i : ℕ, renameDest "out" 30 i =
        "out" ++ "/frame_" ++ timecodeOfInt (30 * i) ++ ".jpg" := by
      intro i
      unfold renameDest
      rw [show nominalOffset i 30 = ((30 * i : ℤ) : ℚ) by push_cast [nominalOffset]; ring,
        secondsToTimecode_nonneg _ (by positivity), Int.floor_intCast]
    simp only [extractedFiles, List.range_succ, List.range_zero, List.map_append,
      List.map_cons, List.map_nil, List.nil_append, e]
    decide

/-- C2 witness: the theorem applied at D = 120, N = 4. -/
theorem extract_frames_cadence_witness :
    (0:ℚ) < 120 ∧ (0:ℚ) < 4 ∧
    extractedFiles "out" (extractInterval 4 120) 4 =
      ["out/frame_00_00_00.jpg", "out/frame_00_00_30.jpg",
       "out/frame_00_01_00.jpg", "out/frame_00_01_30.jpg"] :=
  ⟨by norm_num, by norm_num,
    (extract_frames_cadence 120 4 (by norm_num) (by norm_num)).2.2.2.2.2.2⟩

/-- C5 counterexample: `extractFrames` performs no validation.  With a
probed duration of 10 and an invalid target frame count N = 0 the full
call trace is mkdir, probe, ffmpeg — the decoder is invoked with the
degenerate rate `fps = 0/10 = 0`, and no validation error precedes it,
contradicting the claimed fail-fast behaviour. -/
theorem extract_no_validation_cex :
    extractFramesCalls "video.mp4" "out" 10 0 0 =
      [ExtCall.mkdir "out", ExtCall.ffprobe "video.mp4",
        ExtCall.ffmpeg "video.mp4" (some 0)] ∧
    ExtCall.ffmpeg "video.mp4" (some 0) ∈ extractFramesCalls "video.mp4" "out" 10 0 0 := by
  have h : jsDivTotal 0 10 = some 0 := by
    unfold jsDivTotal
    norm_num
  constructor
  · simp [extractFramesCalls, h]
  · simp [extractFramesCalls, h]

/-- C5 amended: the extractor performs no input validation at all — the
decoder is invoked unconditionally with `fps = targetFrames / duration`,
in particular whenever `duration ≤ 0` or `targetFrames ≤ 0`. -/
theorem extract_no_validation (videoPath outputDir : String) (duration targetFrames : ℚ)
    (count : ℕ) (_hinvalid : duration ≤ 0 ∨ targetFrames ≤ 0) :
    ExtCall.ffmpeg videoPath (jsDivTotal targetFrames duration) ∈
      extractFramesCalls videoPath outputDir duration targetFrames count := by
  simp [extractFramesCalls]

/-- C5 witness: the amended theorem applied at duration 10, N = 0. -/
theorem extract_no_validation_witness :
    ((10:ℚ) ≤ 0 ∨ (0:ℚ) ≤ 0) ∧
    ExtCall.ffmpeg "v.mp4" (jsDivTotal 0 10) ∈ extractFramesCalls "v.mp4" "o" 10 0 7 :=
  ⟨Or.inr le_rfl, extract_no_validation "v.mp4" "o" 10 0 7 (Or.inr le_rfl)⟩

/-- C10: when `interval = D/N < 1`, distinct frame indices whose nominal
offsets truncate to the same whole second receive the identical
`HH_MM_SS` identity, hence the same rename destination; the returned
file list contains duplicate paths, and after the rename loop the
shared destination holds a frame no earlier than the `j`-th — the later
rename overwrote the earlier frame. -/
theorem timecode_collision_overwrites (outputDir : String) (duration targetFrames : ℚ)
    (i j count : ℕ) (hD : 0 < duration) (hN : 0 < targetFrames)
    (_hsub : duration / targetFrames < 1) (hij : i < j) (hj : j < count)
    (hfloor : ⌊nominalOffset i (duration / targetFrames)⌋ =
      ⌊nominalOffset j (duration / targetFrames)⌋) :
    secondsToTimecode (nominalOffset i (duration / targetFrames)) =
      secondsToTimecode (nominalOffset j (duration / targetFrames)) ∧
    renameDest outputDir (duration / targetFrames) i =
      renameDest outputDir (duration / targetFrames) j ∧
    (extractedFiles outputDir (duration / targetFrames) count)[i]? =
      (extractedFiles outputDir (duration / targetFrames) count)[j]? ∧
    ¬ (extractedFiles outputDir (duration / targetFrames) count).Nodup ∧
    ∃ k, finalDirEntry outputDir (duration / targetFrames) count
        (renameDest outputDir (duration / targetFrames) i) = some k ∧ j ≤ k := by
  have hpos : 0 < duration / targetFrames := div_pos hD hN
  have hoff : ∀ k : ℕ, 0 ≤ nominalOffset k (duration / targetFrames) := by
    intro k
    exact mul_nonneg (Nat.cast_nonneg k) hpos.le
  have htc : secondsToTimecode (nominalOffset i (duration / targetFrames)) =
      secondsToTimecode (nominalOffset j (duration / targetFrames)) := by
    rw [secondsToTimecode_nonneg _ (hoff i), secondsToTimecode_nonneg _ (hoff j), hfloor]
  have hrd := renameDest_congr outputDir (duration / targetFrames) i j htc
  have hlen : (extractedFiles outputDir (duration / targetFrames) count).length = count := by
    simp [extractedFiles]
  have hget : (extractedFiles outputDir (duration / targetFrames) count)[i]? =
      (extractedFiles outputDir (duration / targetFrames) count)[j]? := by
    unfold extractedFiles
    rw [List.getElem?_map, List.getElem?_map, List.getElem?_range (lt_trans hij hj),
      List.getElem?_range hj]
    simp [hrd]
  refine ⟨htc, hrd, hget, ?_, ?_⟩
  · intro hnd
    have : i = j :=
      List.getElem?_inj (by rw [hlen]; exact lt_trans hij hj) hnd hget
    omega
  · obtain ⟨k, hk, hjk, _, _⟩ := foldl_lastMatch (renameDest outputDir (duration / targetFrames))
      (renameDest outputDir (duration / targetFrames) i) count j hj hrd.symm
    exact ⟨k, hk, hjk⟩

/-- C10 witness: D = 1, N = 2, so interval = 1/2; frames 0 and 1 both
truncate to second 0 and collide on `frame_00_00_00.jpg`. -/
theorem timecode_collision_overwrites_witness :
    ¬ (extractedFiles "out" ((1:ℚ) / 2) 2).Nodup :=
  (timecode_collision_overwrites "out" 1 2 0 1 2 (by norm_num) (by norm_num) (by norm_num)
    (by norm_num) (by norm_num)
    (by norm_num [nominalOffset, Int.floor_eq_zero_iff, Set.mem_Ico])).2.2.2.1

/-! ### Greyscale pixel buffers and the frame quality scorer

A decoded greyscale buffer is a list of bytes (`Fin 256`), indexed with
JavaScript semantics: an out-of-range index yields `undefined`, and
arithmetic with `undefined` yields `NaN` (modelled by `none`). -/

/-- JavaScript `Buffer` read `data[i]` (with `i` a possibly negative
integer index): out of range gives `undefined`, which behaves as `NaN`
in the surrounding arithmetic. -/
def bufGet (data : List (Fin 256)) (i : ℤ) : Option ℚ :=
  if 0 ≤ i then (data[i.toNat]?).map (fun p => (p.val : ℚ)) else none

/-- The Laplacian expression
`-4*data[i] + data[i-1] + data[i+1] + data[i-width] + data[i+width]`
with JavaScript left-to-right association. -/
def lapAt (data : List (Fin 256)) (width i : ℕ) : Option ℚ :=
  jsAdd (jsAdd (jsAdd (jsAdd (jsMul (some (-4)) (bufGet data (i : ℤ)))
    (bufGet data ((i : ℤ) - 1))) (bufGet data ((i : ℤ) + 1)))
    (bufGet data ((i : ℤ) - (width : ℤ)))) (bufGet data ((i : ℤ) + (width : ℤ)))

/-- The `variance` accumulator loop shared verbatim by `analyzeImage`
(select-images script) and `analyzeAndSelectBestFrame`
(generate-html.ts): `for (i = 1; i < data.length - 1; i++)`, skipping
`i % width === 0` and `i % width === width - 1`, accumulating
`laplacian * laplacian`. -/
def varianceAcc (data : List (Fin 256)) (width : ℕ) : Option ℚ :=
  (List.range' 1 (data.length - 2)).foldl
    (fun acc i =>
      if i % width = 0 ∨ i % width = width - 1 then acc
      else jsAdd acc (jsMul (lapAt data width i) (lapAt data width i)))
    (some 0)

/-- Sum of the byte values of a buffer, as a rational. -/
def pixSum (data : List (Fin 256)) : ℚ := (data.map (fun p => (p.val : ℚ))).sum

/-- `brightness = sum / data.length / 255` from `analyzeImage`. -/
def brightnessJs (data : List (Fin 256)) : Option ℚ :=
  jsDiv (jsDiv (some (pixSum data)) (some (data.length : ℚ))) (some 255)

/-- The radicand `variance / data.length` of the sharpness value of
`analyzeImage`. -/
def sharpnessRad (data : List (Fin 256)) (width : ℕ) : Option ℚ :=
  jsDiv (varianceAcc data width) (some (data.length : ℚ))

/-- `sharpness = Math.sqrt(variance / data.length) / 255` from
`analyzeImage` (`none` = NaN). -/
noncomputable def sharpnessJs (data : List (Fin 256)) (width : ℕ) : Option ℝ :=
  (sharpnessRad data width).map (fun q => Real.sqrt (q : ℝ) / 255)

/-- `score = sharpness * (1 - Math.abs(brightness - 0.5) * 2)` from
`analyzeImage`; NaN in either operand propagates. -/
noncomputable def analyzeScore (data : List (Fin 256)) (width : ℕ) : Option ℝ :=
  match sharpnessJs data width, brightnessJs data with
  | some s, some b => some (s * (1 - |(b : ℝ) - 1/2| * 2))
  | _, _ => none

/-! Reference definitions modelled from the spec (§4.3), used to compare
the code's scorer against the specified one. -/

/-- Modelled from the spec: a pixel qualifies for the Laplacian when it
is an interior pixel (neither in the first/last row nor in the
first/last column of its row). -/
def specQualifies (len width i : ℕ) : Bool :=
  decide (width ≤ i) && decide (i + width < len) &&
    decide (i % width ≠ 0) && decide (i % width ≠ width - 1)

/-- Total pixel read used by the spec-side scorer (qualifying indices
are always in range). -/
def pixAt (data : List (Fin 256)) (i : ℕ) : ℚ := ((data.getD i 0 : Fin 256) : ℕ)

/-- Modelled from the spec: the discrete Laplacian at a qualifying
pixel. -/
def specLap (data : List (Fin 256)) (width i : ℕ) : ℚ :=
  -4 * pixAt data i + pixAt data (i - 1) + pixAt data (i + 1) +
    pixAt data (i - width) + pixAt data (i + width)

/-- Modelled from the spec: the mean of the squared Laplacians over the
qualifying pixels (0 when no pixel qualifies). -/
def specMeanSq (data : List (Fin 256)) (width : ℕ) : ℚ :=
  let qs := (List.range data.length).filter (specQualifies data.length width)
  if qs.length = 0 then 0
  else ((qs.map (fun i => specLap data width i * specLap data width i)).sum) / (qs.length : ℚ)

/-- Modelled from the spec: `sharpness = sqrt(meanSquaredLaplacian)`,
normalized to `[0,1]` by dividing by 255. -/
noncomputable def specSharpness (data : List (Fin 256)) (width : ℕ) : ℝ :=
  Real.sqrt ((specMeanSq data width : ℚ) : ℝ) / 255

/-- Modelled from the spec: `brightness` is the mean intensity
normalized to `[0,1]`. -/
def specBrightness (data : List (Fin 256)) : ℚ :=
  pixSum data / (data.length : ℚ) / 255

/-- Modelled from the spec: the composite score
`sharpness × (1 − 2·|brightness − 0.5|)` of §4.3. -/
noncomputable def specScore (data : List (Fin 256)) (width : ℕ) : ℝ :=
  specSharpness data width * (1 - 2 * |((specBrightness data : ℚ) : ℝ) - 1/2|)

/-! ### Temporal frame selector (`generate-html.ts`)

A `Frame` is an extracted still: its nominal offset in whole seconds
(the value `timecodeToSeconds` parses back out of the file name), its
decoded greyscale buffer and the buffer's row width. -/

structure Frame where
  offset : ℕ
  data : List (Fin 256)
  width : ℕ
deriving DecidableEq

/-- Radicand of the selection score
`score = Math.sqrt(variance / data.length)` computed inside
`analyzeAndSelectBestFrame`.  The loop below only compares scores, and
`Math.sqrt` is strictly monotone on `[0, ∞)` and maps NaN to NaN
(`sqrt_lt_sqrt_iff_of_nonneg`), so comparing radicands is faithful. -/
def frameScoreRad (f : Frame) : Option ℚ :=
  jsDiv (varianceAcc f.data f.width) (some (f.data.length : ℚ))

/-- The selection loop of `analyzeAndSelectBestFrame`:
`best = candidates[0]; bestScore = 0;` then for each candidate frame,
update when `score > bestScore`. -/
def selBest (t : List Frame) (best : Frame) (bestScore : Option ℚ) : Frame :=
  match t with
  | [] => best
  | f :: fs =>
    let score := frameScoreRad f
    if jsGt score bestScore then selBest fs f score else selBest fs best bestScore

/-- The candidate filter of `analyzeAndSelectBestFrame`: frames whose
offset is within `windowSeconds` of the target. -/
def candidatesOf (frames : List Frame) (targetTime windowSeconds : ℚ) : List Frame :=
  frames.filter (fun f => decide (|(f.offset : ℚ) - targetTime| ≤ windowSeconds))

/-- JavaScript `<` against a possibly-infinite bound (`none` stands for
the initial `Infinity` of `findNearestFrame`). -/
def jsLtOpt (d : ℚ) (m : Option ℚ) : Bool :=
  match m with
  | none => true
  | some x => decide (d < x)

/-- The loop of `findNearestFrame`: keep the first frame whose absolute
offset difference is strictly smaller than the running minimum. -/
def nearLoop (t : ℚ) (l : List Frame) (nearest : Frame) (minDiff : Option ℚ) : Frame :=
  match l with
  | [] => nearest
  | f :: fs =>
    let diff := |(f.offset : ℚ) - t|
    if jsLtOpt diff minDiff then nearLoop t fs f (some diff) else nearLoop t fs nearest minDiff

/-- `findNearestFrame` from `generate-html.ts` (`none` corresponds to
the `undefined` result on an empty frame list). -/
def findNearestFrame (frames : List Frame) (targetTime : ℚ) : Option Frame :=
  match frames with
  | [] => none
  | f :: fs => some (nearLoop targetTime (f :: fs) f none)

/-- `analyzeAndSelectBestFrame` from `generate-html.ts`: filter frames
to the tolerance window; if no candidate remains fall back to
`findNearestFrame`, otherwise run the scoring loop seeded with
`best = candidates[0]`, `bestScore = 0`. -/
def analyzeAndSelectBestFrame (frames : List Frame) (targetTime : ℚ)
    (windowSeconds : ℚ) : Option Frame :=
  match candidatesOf frames targetTime windowSeconds with
  | [] => findNearestFrame frames targetTime
  | c :: cs => some (selBest (c :: cs) c (some 0))

theorem varFold_none (data : List (Fin 256)) (width : ℕ) (l : List ℕ) :
    l.foldl (fun acc i =>
      if i % width = 0 ∨ i % width = width - 1 then acc
      else jsAdd acc (jsMul (lapAt data width i) (lapAt data width i))) none = none := by
  induction l with
  | nil => rfl
  | cons i l ih =>
    simp only [List.foldl_cons]
    by_cases h : i % width = 0 ∨ i % width = width - 1
    · rw [if_pos h]
      exact ih
    · rw [if_neg h, jsAdd_none_left]
      exact ih

/-- For any buffer at least 3 pixels wide, the Laplacian at the very
first loop index `i = 1` reads `data[1 - width]`, which is out of
bounds: the result is NaN. -/
theorem lapAt_one_none (data : List (Fin 256)) (width : ℕ) (hw : 3 ≤ width) :
    lapAt data width 1 = none := by
  have h : ¬ (0 : ℤ) ≤ ((1 : ℕ) : ℤ) - (width : ℤ) := by
    have h3 : (3 : ℤ) ≤ (width : ℤ) := by exact_mod_cast hw
    omega
  unfold lapAt bufGet
  rw [if_neg h, jsAdd_none_right, jsAdd_none_left]

/-- For any buffer with at least 3 pixels and width at least 3, the
accumulated `variance` is NaN: the first iteration already adds a NaN
Laplacian square and NaN absorbs everything afterwards. -/
theorem varianceAcc_none (data : List (Fin 256)) (width : ℕ) (hw : 3 ≤ width)
    (hlen : 3 ≤ data.length) : varianceAcc data width = none := by
  unfold varianceAcc
  have h2 : data.length - 2 = (data.length - 3) + 1 := by omega
  rw [h2, List.range'_succ, List.foldl_cons]
  have hmod : (1 : ℕ) % width = 1 := Nat.mod_eq_of_lt (by omega)
  have hskip : ¬ ((1 : ℕ) % width = 0 ∨ 1 % width = width - 1) := by
    rw [hmod]
    omega
  rw [if_neg hskip, lapAt_one_none data width hw]
  rw [show jsMul none none = none from rfl, jsAdd_none_right]
  exact varFold_none data width _

/-- For width 1 or 2 every index is skipped, so `variance` stays 0. -/
theorem varianceAcc_skip (data : List (Fin 256)) (width : ℕ) (hw : width = 1 ∨ width = 2) :
    varianceAcc data width = some 0 := by
  have hskip : ∀ i : ℕ, i % width = 0 ∨ i % width = width - 1 := by
    intro i
    rcases hw with h | h <;> subst h <;> omega
  unfold varianceAcc
  generalize (List.range' 1 (data.length - 2)) = l
  induction l with
  | nil => rfl
  | cons i l ih =>
    rw [List.foldl_cons, if_pos (hskip i)]
    exact ih

/-- The score radicand of every frame whose buffer has a positive width
is NaN or 0: with width ≥ 3 and at least 3 pixels the variance is NaN,
and otherwise the variance is 0 (or the division is `0/0`). -/
theorem frameScoreRad_dichotomy (f : Frame) (hw : 1 ≤ f.width) :
    frameScoreRad f = none ∨ frameScoreRad f = some 0 := by
  unfold frameScoreRad
  by_cases h3 : 3 ≤ f.width
  · by_cases hlen : 3 ≤ f.data.length
    · left
      rw [varianceAcc_none f.data f.width h3 hlen]
      rfl
    · have h0 : f.data.length - 2 = 0 := by omega
      have hva : varianceAcc f.data f.width = some 0 := by
        unfold varianceAcc
        rw [h0]
        rfl
      rw [hva]
      by_cases hl : ((f.data.length : ℚ)) = 0
      · left
        simp [jsDiv, hl]
      · right
        simp [jsDiv, hl]
  · have hva := varianceAcc_skip f.data f.width (by omega)
    rw [hva]
    by_cases hl : ((f.data.length : ℚ)) = 0
    · left
      simp [jsDiv, hl]
    · right
      simp [jsDiv, hl]

theorem jsGt_score_zero (f : Frame) (hw : 1 ≤ f.width) :
    jsGt (frameScoreRad f) (some 0) = false := by
  rcases frameScoreRad_dichotomy f hw with h | h <;> rw [h] <;> simp [jsGt]

/-- Because no candidate's score ever exceeds the initial `bestScore = 0`
(every score is NaN or 0), the selection loop returns its seed. -/
theorem selBest_const (t : List Frame) : ∀ best : Frame,
    (∀ f ∈ t, jsGt (frameScoreRad f) (some 0) = false) →
    selBest t best (some 0) = best := by
  induction t with
  | nil =>
    intro best _
    rfl
  | cons f fs ih =>
    intro best h
    simp only [selBest, h f (List.mem_cons_self f fs), Bool.false_eq_true, if_false]
    exact ih best (fun g hg => h g (List.mem_cons_of_mem f hg))

/-- Full characterization of the `findNearestFrame` loop on a sorted
remainder: the result is a member achieving the minimal absolute
difference; it only improves strictly on the seed; and on ties it keeps
the frame with the smallest offset. -/
theorem nearLoop_spec (t : ℚ) :
    ∀ (fs : List Frame) (cur : Frame) (d : ℚ),
      List.Pairwise (fun a b : Frame => a.offset ≤ b.offset) fs →
      (∀ g ∈ fs, cur.offset ≤ g.offset) →
      d = |(cur.offset : ℚ) - t| →
      (nearLoop t fs cur (some d) = cur ∨ nearLoop t fs cur (some d) ∈ fs) ∧
      (∀ g ∈ fs, |((nearLoop t fs cur (some d)).offset : ℚ) - t| ≤ |(g.offset : ℚ) - t|) ∧
      |((nearLoop t fs cur (some d)).offset : ℚ) - t| ≤ d ∧
      (|((nearLoop t fs cur (some d)).offset : ℚ) - t| = d → nearLoop t fs cur (some d) = cur) ∧
      (∀ g ∈ fs, |(g.offset : ℚ) - t| = |((nearLoop t fs cur (some d)).offset : ℚ) - t| →
        (nearLoop t fs cur (some d)).offset ≤ g.offset) := by
  intro fs
  induction fs with
  | nil =>
    intro cur d _ _ hd
    refine ⟨Or.inl rfl, by simp, le_of_eq hd.symm, fun _ => rfl, by simp⟩
  | cons f fs ih =>
    intro cur d hpw hlow hd
    have hpw' := (List.pairwise_cons.mp hpw).2
    have hfl := (List.pairwise_cons.mp hpw).1
    by_cases hlt : |(f.offset : ℚ) - t| < d
    · have hbr : nearLoop t (f :: fs) cur (some d) =
          nearLoop t fs f (some |(f.offset : ℚ) - t|) := by
        simp only [nearLoop, jsLtOpt]
        rw [if_pos (by simpa using hlt)]
      obtain ⟨hmem, hmin, hle, heq, hties⟩ := ih f |(f.offset : ℚ) - t| hpw' hfl rfl
      rw [hbr]
      refine ⟨?_, ?_, ?_, ?_, ?_⟩
      · rcases hmem with h | h
        · refine Or.inr ?_
          rw [h]
          exact List.mem_cons_self f fs
        · exact Or.inr (List.mem_cons_of_mem f h)
      · intro g hg
        rcases List.mem_cons.mp hg with h | h
        · exact h ▸ hle
        · exact hmin g h
      · exact le_of_lt (lt_of_le_of_lt hle hlt)
      · intro habs
        exact absurd habs (ne_of_lt (lt_of_le_of_lt hle hlt))
      · intro g hg htie
        rcases List.mem_cons.mp hg with h | h
        · subst h
          rw [heq htie.symm]
        · exact hties g h htie
    · have hbr : nearLoop t (f :: fs) cur (some d) = nearLoop t fs cur (some d) := by
        simp only [nearLoop, jsLtOpt]
        rw [if_neg (by simpa using hlt)]
      obtain ⟨hmem, hmin, hle, heq, hties⟩ := ih cur d hpw'
        (fun g hg => hlow g (List.mem_cons_of_mem f hg)) hd
      rw [hbr]
      refine ⟨?_, ?_, hle, heq, ?_⟩
      · rcases hmem with h | h
        · exact Or.inl h
        · exact Or.inr (List.mem_cons_of_mem f h)
      · intro g hg
        rcases List.mem_cons.mp hg with h | h
        · subst h
          exact le_trans hle (not_lt.mp hlt)
        · exact hmin g h
      · intro g hg htie
        rcases List.mem_cons.mp hg with h | h
        · subst h
          have hdle : d ≤ |(g.offset : ℚ) - t| := not_lt.mp hlt
          have h1 : |((nearLoop t fs cur (some d)).offset : ℚ) - t| = d :=
            le_antisymm hle (hdle.trans_eq htie)
          rw [heq h1]
          exact hlow g (List.mem_cons_self g fs)
        · exact hties g h htie

/-! ### Concrete buffers used to exercise the scorer -/

/-- A 3×3 uniformly grey buffer (all pixels 128). -/
def greyBuf : List (Fin 256) := [128, 128, 128, 128, 128, 128, 128, 128, 128]

/-- A 3×3 checkerboard buffer. -/
def checkerBuf : List (Fin 256) := [0, 255, 0, 255, 0, 255, 0, 255, 0]

/-- A fully saturated (all-white) 1×2 buffer. -/
def satBuf : List (Fin 256) := [255, 255]

/-- Frame at offset 0 holding the grey buffer. -/
def greyFrame : Frame := ⟨0, greyBuf, 3⟩

/-- Frame at offset 30 holding the checkerboard buffer. -/
def checkerFrame : Frame := ⟨30, checkerBuf, 3⟩

theorem pixAt_eval (data : List (Fin 256)) (i v : ℕ) (h : (data.getD i 0).val = v) :
    pixAt data i = (v : ℚ) := by
  unfold pixAt
  exact_mod_cast congrArg (fun n : ℕ => (n : ℚ)) h

/-- C1 amended: with real buffers (positive width) the selector considers
exactly the frames inside `[t−W, t+W]`; when candidates exist it returns
the *earliest* one — the scoring loop never updates, because every
computed score is NaN (width ≥ 3: out-of-bounds Laplacian reads) or 0,
never strictly above the initial `bestScore = 0` — and when no frame is
in the window it returns the frame offset-closest to the target, ties
going to the earliest offset. -/
theorem temporal_selector_amended (frames : List Frame) (targetTime windowSeconds : ℚ)
    (hw : ∀ f ∈ frames, 1 ≤ f.width)
    (hsorted : List.Pairwise (fun a b : Frame => a.offset ≤ b.offset) frames) :
    (∀ c cs, candidatesOf frames targetTime windowSeconds = c :: cs →
      analyzeAndSelectBestFrame frames targetTime windowSeconds = some c ∧
      c ∈ frames ∧ |(c.offset : ℚ) - targetTime| ≤ windowSeconds ∧
      (∀ g ∈ candidatesOf frames targetTime windowSeconds, c.offset ≤ g.offset)) ∧
    (candidatesOf frames targetTime windowSeconds = [] →
      ∀ f fs, frames = f :: fs →
      ∃ r, analyzeAndSelectBestFrame frames targetTime windowSeconds = some r ∧ r ∈ frames ∧
        (∀ g ∈ frames, |(r.offset : ℚ) - targetTime| ≤ |(g.offset : ℚ) - targetTime|) ∧
        (∀ g ∈ frames, |(g.offset : ℚ) - targetTime| = |(r.offset : ℚ) - targetTime| →
          r.offset ≤ g.offset)) := by
  constructor
  · intro c cs hc
    have hcmem : c ∈ frames := List.mem_of_mem_filter (hc ▸ List.mem_cons_self c cs)
    have hall : ∀ f ∈ c :: cs, jsGt (frameScoreRad f) (some 0) = false := by
      intro f hf
      exact jsGt_score_zero f (hw f (List.mem_of_mem_filter (hc ▸ hf)))
    have hsel : selBest (c :: cs) c (some 0) = c := selBest_const (c :: cs) c hall
    refine ⟨?_, hcmem, ?_, ?_⟩
    · unfold analyzeAndSelectBestFrame
      rw [hc]
      show some (selBest (c :: cs) c (some 0)) = some c
      rw [hsel]
    · have hmemc : c ∈ frames.filter
          (fun f : Frame => decide (|(f.offset : ℚ) - targetTime| ≤ windowSeconds)) := by
        show c ∈ candidatesOf frames targetTime windowSeconds
        rw [hc]
        exact List.mem_cons_self c cs
      have hfc := List.of_mem_filter hmemc
      simpa using hfc
    · have hpC : List.Pairwise (fun a b : Frame => a.offset ≤ b.offset)
          (candidatesOf frames targetTime windowSeconds) := hsorted.filter _
      rw [hc] at hpC
      intro g hg
      rw [hc] at hg
      rcases List.mem_cons.mp hg with h | h
      · rw [h]
      · exact (List.pairwise_cons.mp hpC).1 g h
  · intro hc f fs hf
    subst hf
    have hstep : nearLoop targetTime (f :: fs) f none =
        nearLoop targetTime fs f (some |(f.offset : ℚ) - targetTime|) := by
      simp only [nearLoop, jsLtOpt]
      simp
    have hpw' := (List.pairwise_cons.mp hsorted).2
    have hfl := (List.pairwise_cons.mp hsorted).1
    obtain ⟨hmem, hmin, hle, heq, hties⟩ := nearLoop_spec targetTime fs f
      (|(f.offset : ℚ) - targetTime|) hpw' hfl rfl
    refine ⟨nearLoop targetTime fs f (some |(f.offset : ℚ) - targetTime|), ?_, ?_, ?_, ?_⟩
    · unfold analyzeAndSelectBestFrame
      rw [hc]
      show findNearestFrame (f :: fs) targetTime = _
      unfold findNearestFrame
      show some (nearLoop targetTime (f :: fs) f none) = _
      rw [hstep]
    · rcases hmem with h | h
      · rw [h]
        exact List.mem_cons_self f fs
      · exact List.mem_cons_of_mem f h
    · intro g hg
      rcases List.mem_cons.mp hg with h | h
      · rw [h]
        exact hle
      · exact hmin g h
    · intro g hg htie
      rcases List.mem_cons.mp hg with h | h
      · subst h
        rw [heq htie.symm]
      · exact hties g h htie

/-- C1 witness: two sorted frames with 3-wide buffers, target 50,
window 120; both are candidates and the selector returns the earlier. -/
theorem temporal_selector_amended_witness :
    analyzeAndSelectBestFrame [greyFrame, checkerFrame] 50 120 = some greyFrame := by
  have hcand : candidatesOf [greyFrame, checkerFrame] 50 120 =
      greyFrame :: [checkerFrame] := by
    unfold candidatesOf greyFrame checkerFrame
    norm_num [List.filter]
  exact ((temporal_selector_amended [greyFrame, checkerFrame] 50 120
    (by intro f hf; rcases List.mem_cons.mp hf with h | h
        · rw [h]; norm_num [greyFrame]
        · rcases List.mem_cons.mp h with h2 | h2
          · rw [h2]; norm_num [checkerFrame]
          · simp at h2)
    (by constructor
        · intro b hb
          rcases List.mem_cons.mp hb with h | h
          · rw [h]; norm_num [greyFrame, checkerFrame]
          · simp at h
        · simp)).1 greyFrame [checkerFrame] hcand).1

theorem specMeanSq_grey : specMeanSq greyBuf 3 = 0 := by
  have hq : (List.range (greyBuf.length)).filter (specQualifies (greyBuf.length) 3) = [4] := by
    decide
  have hlap : specLap greyBuf 3 4 = 0 := by
    unfold specLap
    rw [pixAt_eval greyBuf 4 128 (by decide), pixAt_eval greyBuf 3 128 (by decide),
      pixAt_eval greyBuf 5 128 (by decide), pixAt_eval greyBuf 1 128 (by decide),
      pixAt_eval greyBuf 7 128 (by decide)]
    norm_num
  unfold specMeanSq
  rw [hq]
  simp [hlap]

theorem specMeanSq_checker : specMeanSq checkerBuf 3 = 1040400 := by
  have hq : (List.range (checkerBuf.length)).filter (specQualifies (checkerBuf.length) 3) =
      [4] := by decide
  have hlap : specLap checkerBuf 3 4 = 1020 := by
    unfold specLap
    rw [pixAt_eval checkerBuf 4 0 (by decide), pixAt_eval checkerBuf 3 255 (by decide),
      pixAt_eval checkerBuf 5 255 (by decide), pixAt_eval checkerBuf 1 255 (by decide),
      pixAt_eval checkerBuf 7 255 (by decide)]
    norm_num
  unfold specMeanSq
  rw [hq]
  simp [hlap]
  norm_num

theorem specSharpness_grey : specSharpness greyBuf 3 = 0 := by
  unfold specSharpness
  rw [specMeanSq_grey]
  norm_num

theorem specScore_grey : specScore greyBuf 3 = 0 := by
  unfold specScore
  rw [specSharpness_grey, zero_mul]

theorem specSharpness_checker : specSharpness checkerBuf 3 = 4 := by
  unfold specSharpness
  rw [specMeanSq_checker]
  rw [show (((1040400 : ℚ)) : ℝ) = 1020 ^ 2 by norm_num,
    Real.sqrt_sq (by norm_num : (0:ℝ) ≤ 1020)]
  norm_num

theorem specBrightness_checker : specBrightness checkerBuf = 4 / 9 := by
  have hs : pixSum checkerBuf = 1020 := by
    unfold pixSum checkerBuf
    norm_num [show ((255 : Fin 256) : ℕ) = 255 from rfl, show ((0 : Fin 256) : ℕ) = 0 from rfl]
  unfold specBrightness
  rw [hs]
  norm_num [checkerBuf]

theorem specScore_checker : specScore checkerBuf 3 = 32 / 9 := by
  unfold specScore
  rw [specSharpness_checker, specBrightness_checker,
    show ((((4:ℚ) / 9 : ℚ)) : ℝ) - 1/2 = -(1/18) by push_cast; norm_num,
    abs_neg, abs_of_nonneg (by norm_num : (0:ℝ) ≤ 1/18)]
  norm_num

/-- C1 counterexample: frames at offsets 0 (uniform grey) and 30
(checkerboard), target 30, window 120.  Both frames are candidates and
the checkerboard has the strictly larger §4.3 composite score (32/9
versus 0), so the claim requires the selector to return the
checkerboard frame; the code returns the grey frame — its internal
sharpness values are NaN for every 3-wide buffer, so the comparison
`score > bestScore` never fires and `candidates[0]` survives. -/
theorem temporal_selector_cex :
    analyzeAndSelectBestFrame [greyFrame, checkerFrame] 30 120 = some greyFrame ∧
    checkerFrame ∈ candidatesOf [greyFrame, checkerFrame] 30 120 ∧
    specScore greyFrame.data greyFrame.width < specScore checkerFrame.data checkerFrame.width ∧
    greyFrame ≠ checkerFrame := by
  have hcand : candidatesOf [greyFrame, checkerFrame] 30 120 =
      greyFrame :: [checkerFrame] := by
    unfold candidatesOf greyFrame checkerFrame
    norm_num [List.filter]
  have hall : ∀ f ∈ greyFrame :: [checkerFrame], jsGt (frameScoreRad f) (some 0) = false := by
    intro f hf
    apply jsGt_score_zero
    rcases List.mem_cons.mp hf with h | h
    · rw [h]
      norm_num [greyFrame]
    · rcases List.mem_cons.mp h with h2 | h2
      · rw [h2]
        norm_num [checkerFrame]
      · simp at h2
  refine ⟨?_, ?_, ?_, ?_⟩
  · unfold analyzeAndSelectBestFrame
    rw [hcand]
    show some (selBest (greyFrame :: [checkerFrame]) greyFrame (some 0)) = some greyFrame
    rw [selBest_const (greyFrame :: [checkerFrame]) greyFrame hall]
  · rw [hcand]
    simp
  · show specScore greyBuf 3 < specScore checkerBuf 3
    rw [specScore_grey, specScore_checker]
    norm_num
  · intro h
    have := congrArg Frame.offset h
    simp [greyFrame, checkerFrame] at this

/-- C3: on the 3×3 uniformly grey buffer the claim (and the spec's
formula) give sharpness 0, but the code's accumulation reads
`data[i - width]` and `data[i + width]` out of bounds on the first and
last rows, so the computed sharpness is NaN, not a number at all. -/
theorem scorer_sharpness_nan_bug :
    sharpnessJs greyBuf 3 = none ∧ specSharpness greyBuf 3 = 0 := by
  constructor
  · unfold sharpnessJs sharpnessRad
    rw [varianceAcc_none greyBuf 3 (by norm_num) (by decide)]
    rfl
  · exact specSharpness_grey

theorem pixSum_nonneg (data : List (Fin 256)) : 0 ≤ pixSum data := by
  unfold pixSum
  apply List.sum_nonneg
  intro x hx
  obtain ⟨p, _, rfl⟩ := List.mem_map.mp hx
  positivity

theorem pixSum_le (data : List (Fin 256)) : pixSum data ≤ 255 * (data.length : ℚ) := by
  induction data with
  | nil => simp [pixSum]
  | cons p l ih =>
    have hb : ((p : ℕ) : ℚ) ≤ 255 := by exact_mod_cast Nat.lt_succ_iff.mp p.isLt
    unfold pixSum at ih ⊢
    rw [List.map_cons, List.sum_cons, List.length_cons]
    push_cast
    linarith

theorem brightnessJs_eq (data : List (Fin 256)) (b : ℚ) (h : brightnessJs data = some b) :
    data.length ≠ 0 ∧ b = pixSum data / (data.length : ℚ) / 255 := by
  unfold brightnessJs at h
  by_cases hl : ((data.length : ℚ)) = 0
  · simp [jsDiv, hl] at h
  · simp [jsDiv, hl] at h
    refine ⟨?_, h.symm⟩
    intro h0
    exact hl (by exact_mod_cast congrArg (fun n : ℕ => (n : ℚ)) h0)

theorem sharpnessJs_eq (data : List (Fin 256)) (width : ℕ) (s : ℝ)
    (h : sharpnessJs data width = some s) :
    ∃ r : ℚ, s = Real.sqrt ((r : ℚ) : ℝ) / 255 := by
  unfold sharpnessJs at h
  cases hrad : sharpnessRad data width with
  | none =>
    rw [hrad] at h
    simp at h
  | some r =>
    rw [hrad] at h
    simp at h
    exact ⟨r, h.symm⟩

/-- C7 amended: the composite score is never negative.  The brightness
of any buffer lies in `[0, 1]`, so the penalty factor
`1 − 2·|brightness − 0.5|` lies in `[0, 1]` as well, and the sharpness
factor is a nonnegative square root; whenever the score is a number at
all (it is NaN for buffers at least 3 pixels wide), it is ≥ 0 — at
fully saturated brightness it is exactly 0, never negative. -/
theorem analyze_score_nonneg (data : List (Fin 256)) (width : ℕ) (q : ℝ)
    (h : analyzeScore data width = some q) : 0 ≤ q := by
  unfold analyzeScore at h
  cases hs : sharpnessJs data width with
  | none =>
    rw [hs] at h
    simp at h
  | some s =>
    cases hb : brightnessJs data with
    | none =>
      rw [hs, hb] at h
      simp at h
    | some b =>
      rw [hs, hb] at h
      simp only [Option.some.injEq] at h
      obtain ⟨r, hr⟩ := sharpnessJs_eq data width s hs
      obtain ⟨hlen, hbv⟩ := brightnessJs_eq data b hb
      have hs0 : 0 ≤ s := by
        rw [hr]
        exact div_nonneg (Real.sqrt_nonneg _) (by norm_num)
      have hlpos : (0:ℚ) < (data.length : ℚ) := by
        exact_mod_cast Nat.pos_of_ne_zero hlen
      have hb0 : 0 ≤ b := by
        rw [hbv]
        exact div_nonneg (div_nonneg (pixSum_nonneg data) hlpos.le) (by norm_num)
      have hb1 : b ≤ 1 := by
        rw [hbv, div_le_one (by norm_num : (0:ℚ) < 255), div_le_iff₀ hlpos]
        calc pixSum data ≤ 255 * (data.length : ℚ) := pixSum_le data
        _ = 255 * (data.length : ℚ) := rfl
      have hb0' : (0:ℝ) ≤ (b : ℝ) := by exact_mod_cast hb0
      have hb1' : ((b : ℝ)) ≤ 1 := by exact_mod_cast hb1
      have habs : |(b:ℝ) - 1/2| ≤ 1/2 := by
        rw [abs_le]
        constructor <;> linarith
      have hfac : 0 ≤ 1 - |(b:ℝ) - 1/2| * 2 := by linarith
      rw [← h]
      exact mul_nonneg hs0 hfac

theorem pixSum_sat : pixSum satBuf = 510 := by
  unfold pixSum satBuf
  norm_num [show ((255 : Fin 256) : ℕ) = 255 from rfl]

theorem brightnessJs_sat : brightnessJs satBuf = some 1 := by
  unfold brightnessJs
  rw [pixSum_sat]
  norm_num [jsDiv, satBuf]

theorem sharpnessJs_sat : sharpnessJs satBuf 2 = some 0 := by
  unfold sharpnessJs sharpnessRad
  rw [varianceAcc_skip satBuf 2 (Or.inr rfl)]
  norm_num [jsDiv, satBuf]

theorem analyzeScore_sat : analyzeScore satBuf 2 = some 0 := by
  unfold analyzeScore
  rw [sharpnessJs_sat, brightnessJs_sat]
  simp

/-- C7 counterexample: the claim's scenario evaluated at a concrete
input.  On a fully saturated buffer (brightness exactly 1, the extreme
of "saturates near 1") the composite score is 0 — not negative: the
brightness factor bottoms out at 0 and the score cannot go below it. -/
theorem negative_score_cex :
    brightnessJs satBuf = some 1 ∧ analyzeScore satBuf 2 = some 0 :=
  ⟨brightnessJs_sat, analyzeScore_sat⟩

/-- C7 witness: the amended theorem applied to the saturated buffer. -/
theorem analyze_score_nonneg_witness :
    analyzeScore satBuf 2 = some 0 ∧ (0:ℝ) ≤ 0 :=
  ⟨analyzeScore_sat, analyze_score_nonneg satBuf 2 0 analyzeScore_sat⟩

/-! ### `server.ts` — the step orchestrator

The `/api/projects/:id/run/:step` handler mutates the project record
through `updateProject` calls.  `runSingleStep` returns the successive
record states written by one individual-step request: first the
step-state write, then either the success write or the `catch`-handler
write (`status: "error"` with the error message recorded verbatim). -/

inductive JobStatus where
  | pending
  | transcribing
  | extracting
  | generating
  | completed
  | error
deriving DecidableEq

structure Job where
  status : JobStatus
  errorMessage : Option String
  transcribeCompleted : Bool
  extractCompleted : Bool
  generateCompleted : Bool
  vttPath : Option String
  wavPath : Option String
  htmlPath : Option String
deriving DecidableEq

inductive RunStep where
  | transcribe
  | extract
  | generate
deriving DecidableEq

/-- The in-progress status written before the step's script runs. -/
def stepStatus : RunStep → JobStatus
  | .transcribe => .transcribing
  | .extract => .extracting
  | .generate => .generating

/-- The `updateProject` fields written when the step's script exits
successfully.  Note: `transcribe` and `extract` set the status back to
`pending`, but `generate` sets it to `completed`. -/
def applySuccess : RunStep → Job → Job
  | .transcribe, p =>
    { p with
      transcribeCompleted := true
      vttPath := some "video.vtt"
      wavPath := some "video.wav"
      status := .pending }
  | .extract, p => { p with extractCompleted := true, status := .pending }
  | .generate, p =>
    { p with
      generateCompleted := true
      htmlPath := some "video.html"
      status := .completed }

/-- One individual-step request: the list of record states written, in
order.  On failure the `catch` handler records the process's message
verbatim and sets the status to `error`. -/
def runSingleStep (s : RunStep) (outcome : Except String Unit) (p : Job) : List Job :=
  let p1 := { p with status := stepStatus s }
  match outcome with
  | .ok _ => [p1, applySuccess s p1]
  | .error msg => [p1, { p1 with status := .error, errorMessage := some msg }]

/-- A freshly uploaded project record. -/
def freshJob : Job := ⟨.pending, none, false, false, false, none, none, none⟩

/-- C4 counterexample: a successful `generate` run on a pending job ends
in `completed`, not `pending` as the claim states for every individual
step. -/
theorem generate_step_completed_cex :
    (runSingleStep .generate (.ok ()) freshJob).map Job.status =
      [JobStatus.generating, JobStatus.completed] := rfl

/-- C4 amended: an individual `transcribe` or `extract` run on a pending
job transitions `pending → <step-state> → pending` on success, while an
individual `generate` run transitions `pending → generating →
completed`; on failure every step transitions
`pending → <step-state> → error` with the process's failure message
recorded verbatim. -/
theorem orchestrator_single_step (p : Job) (msg : String) (_hp : p.status = .pending) :
    ((runSingleStep .transcribe (.ok ()) p).map Job.status =
      [JobStatus.transcribing, JobStatus.pending]) ∧
    ((runSingleStep .extract (.ok ()) p).map Job.status =
      [JobStatus.extracting, JobStatus.pending]) ∧
    ((runSingleStep .generate (.ok ()) p).map Job.status =
      [JobStatus.generating, JobStatus.completed]) ∧
    (∀ s : RunStep, (runSingleStep s (.error msg) p).map Job.status =
        [stepStatus s, JobStatus.error] ∧
      ∃ q, (runSingleStep s (.error msg) p).getLast? = some q ∧
        q.errorMessage = some msg ∧ q.status = .error) := by
  refine ⟨rfl, rfl, rfl, ?_⟩
  intro s
  cases s <;> exact ⟨rfl, ⟨_, rfl, rfl, rfl⟩⟩

/-- C4 witness: the amended theorem applied to a fresh pending job. -/
theorem orchestrator_single_step_witness :
    freshJob.status = .pending ∧
    (runSingleStep .transcribe (.ok ()) freshJob).map Job.status =
      [JobStatus.transcribing, JobStatus.pending] :=
  ⟨rfl, (orchestrator_single_step freshJob "transcribe.ts failed with code 1" rfl).1⟩

/-! ### `select-images.ts` — fixed-count selection (`selectBestImages`)

The partition-and-pick stage operates on the list of `ImageScore`
records produced by `analyzeImage` over the sorted frame files; score
values are modelled as exact rationals (`none` = NaN), and only their
order matters to this routine.  `reduceMax` models
`group.reduce((a, b) => a.score > b.score ? a : b)`, which throws on an
empty group (`none`); `pickLoop` models the `for (g = 0; g < numImages;
g++)` loop, which aborts when any group is empty. -/

structure ImageScore where
  path : String
  sharpness : Option ℚ
  brightness : Option ℚ
  score : Option ℚ
deriving DecidableEq

/-- `group.reduce((a, b) => a.score > b.score ? a : b)`; `none` models
the TypeError thrown on an empty group. -/
def reduceMax (l : List ImageScore) : Option ImageScore :=
  match l with
  | [] => none
  | x :: xs => some (xs.foldl (fun a b => if jsGt a.score b.score then a else b) x)

/-- `groupSize = Math.ceil(files.length / numImages)`. -/
def groupSizeOf (count numImages : ℕ) : ℕ :=
  (Int.toNat ⌈(count : ℚ) / (numImages : ℚ)⌉)

/-- `scores.slice(g * groupSize, min((g+1) * groupSize, length))`. -/
def groupOf (scores : List ImageScore) (gs g : ℕ) : List ImageScore :=
  (scores.drop (g * gs)).take gs

/-- The selection loop over group indices. -/
def pickLoop (scores : List ImageScore) (gs : ℕ) : List ℕ → Option (List ImageScore)
  | [] => some []
  | g :: rest =>
    match reduceMax (groupOf scores gs g) with
    | none => none
    | some m => (pickLoop scores gs rest).map (fun sel => m :: sel)

/-- `selectBestImages` from `select-images.ts`, restricted to its
partition-and-pick stage: partition the scored list into `numImages`
contiguous groups of `ceil(count/numImages)` and pick each group's
reduce-maximum, in group order. -/
def selectBestImages (scores : List ImageScore) (numImages : ℕ) : Option (List ImageScore) :=
  pickLoop scores (groupSizeOf scores.length numImages) (List.range numImages)

/-- Score comparison on the JavaScript side: `x` scores no higher than
`m` whenever both scores are numbers. -/
def scoreLe (x m : ImageScore) : Prop :=
  ∀ qx qm : ℚ, x.score = some qx → m.score = some qm → qx ≤ qm

theorem scoreLe_of (x m : ImageScore) (qx qm : ℚ) (hx : x.score = some qx)
    (hm : m.score = some qm) (h : qx ≤ qm) : scoreLe x m := by
  intro a b ha hb
  rw [hx] at ha
  rw [hm] at hb
  cases ha
  cases hb
  exact h

theorem scoreLe_trans (x y z : ImageScore) (hy : y.score ≠ none)
    (h1 : scoreLe x y) (h2 : scoreLe y z) : scoreLe x z := by
  intro qx qz hx hz
  obtain ⟨qy, hqy⟩ := Option.ne_none_iff_exists'.mp hy
  exact le_trans (h1 qx qy hx hqy) (h2 qy qz hqy hz)

theorem foldMax_spec : ∀ (xs : List ImageScore) (a : ImageScore),
    (∀ y ∈ a :: xs, y.score ≠ none) →
    (xs.foldl (fun a b => if jsGt a.score b.score then a else b) a ∈ a :: xs) ∧
    (∀ y ∈ a :: xs, scoreLe y (xs.foldl (fun a b => if jsGt a.score b.score then a else b) a)) := by
  intro xs
  induction xs with
  | nil =>
    intro a _
    simp only [List.foldl_nil]
    refine ⟨List.mem_cons_self a [], ?_⟩
    intro y hy
    rcases List.mem_cons.mp hy with h | h
    · subst h
      intro qx qm h1 h2
      rw [h1] at h2
      cases h2
      exact le_rfl
    · simp at h
  | cons b xs ih =>
    intro a hnum
    have ha : a.score ≠ none := hnum a (List.mem_cons_self a (b :: xs))
    have hb : b.score ≠ none := hnum b (List.mem_cons_of_mem a (List.mem_cons_self b xs))
    obtain ⟨qa, hqa⟩ := Option.ne_none_iff_exists'.mp ha
    obtain ⟨qb, hqb⟩ := Option.ne_none_iff_exists'.mp hb
    by_cases hif : jsGt a.score b.score = true
    · have hgt : qb < qa := by
        rw [hqa, hqb] at hif
        exact of_decide_eq_true hif
      have hfold : (b :: xs).foldl (fun a b => if jsGt a.score b.score then a else b) a =
          xs.foldl (fun a b => if jsGt a.score b.score then a else b) a := by
        rw [List.foldl_cons, if_pos hif]
      have hnum' : ∀ y ∈ a :: xs, y.score ≠ none := by
        intro y hy
        rcases List.mem_cons.mp hy with h | h
        · rw [h]
          exact ha
        · exact hnum y (List.mem_cons_of_mem a (List.mem_cons_of_mem b h))
      obtain ⟨hmem, hle⟩ := ih a hnum'
      rw [hfold]
      constructor
      · rcases List.mem_cons.mp hmem with h | h
        · rw [h]
          exact List.mem_cons_self a (b :: xs)
        · exact List.mem_cons_of_mem a (List.mem_cons_of_mem b h)
      · intro y hy
        rcases List.mem_cons.mp hy with h | h
        · rw [h]
          exact hle a (List.mem_cons_self a xs)
        · rcases List.mem_cons.mp h with h2 | h2
          · rw [h2]
            exact scoreLe_trans b a _ ha
              (scoreLe_of b a qb qa hqb hqa hgt.le)
              (hle a (List.mem_cons_self a xs))
          · exact hle y (List.mem_cons_of_mem a h2)
    · have hle_ab : qa ≤ qb := by
        rw [hqa, hqb] at hif
        simpa using not_lt.mp (fun hlt => hif (decide_eq_true hlt))
      have hfold : (b :: xs).foldl (fun a b => if jsGt a.score b.score then a else b) a =
          xs.foldl (fun a b => if jsGt a.score b.score then a else b) b := by
        rw [List.foldl_cons, if_neg (by simpa using hif)]
      have hnum' : ∀ y ∈ b :: xs, y.score ≠ none := by
        intro y hy
        exact hnum y (List.mem_cons_of_mem a hy)
      obtain ⟨hmem, hle⟩ := ih b hnum'
      rw [hfold]
      constructor
      · exact List.mem_cons_of_mem a hmem
      · intro y hy
        rcases List.mem_cons.mp hy with h | h
        · subst h
          exact scoreLe_trans y b _ hb
            (scoreLe_of y b qa qb hqa hqb hle_ab)
            (hle b (List.mem_cons_self b xs))
        · exact hle y h

theorem reduceMax_spec (l : List ImageScore) (hne : l ≠ [])
    (hnum : ∀ y ∈ l, y.score ≠ none) :
    ∃ m, reduceMax l = some m ∧ m ∈ l ∧ ∀ y ∈ l, scoreLe y m := by
  match l with
  | [] => exact absurd rfl hne
  | x :: xs =>
    obtain ⟨hmem, hle⟩ := foldMax_spec xs x hnum
    exact ⟨_, rfl, hmem, hle⟩

theorem pickLoop_spec (scores : List ImageScore) (gs : ℕ) :
    ∀ gl : List ℕ,
      (∀ g ∈ gl, groupOf scores gs g ≠ [] ∧ ∀ y ∈ groupOf scores gs g, y.score ≠ none) →
      ∃ sel, pickLoop scores gs gl = some sel ∧ sel.length = gl.length ∧
        ∀ k g : ℕ, gl[k]? = some g → ∃ m, sel[k]? = some m ∧ m ∈ groupOf scores gs g ∧
          ∀ y ∈ groupOf scores gs g, scoreLe y m := by
  intro gl
  induction gl with
  | nil =>
    intro _
    refine ⟨[], rfl, rfl, ?_⟩
    intro k g h
    simp at h
  | cons g rest ih =>
    intro h
    obtain ⟨m, hrm, hmem, hle⟩ := reduceMax_spec (groupOf scores gs g)
      (h g (List.mem_cons_self g rest)).1 (h g (List.mem_cons_self g rest)).2
    obtain ⟨sel, hsel, hlen, hidx⟩ := ih (fun g' hg' => h g' (List.mem_cons_of_mem g hg'))
    refine ⟨m :: sel, ?_, by simp [hlen], ?_⟩
    · simp only [pickLoop]
      rw [hrm, hsel]
      rfl
    · intro k g' hk
      match k with
      | 0 =>
        simp only [List.getElem?_cons_zero, Option.some.injEq] at hk
        subst hk
        exact ⟨m, by simp, hmem, hle⟩
      | k + 1 =>
        simp only [List.getElem?_cons_succ] at hk ⊢
        exact hidx k g' hk

theorem pickLoop_none (scores : List ImageScore) (gs : ℕ) :
    ∀ (gl : List ℕ) (g : ℕ), g ∈ gl → groupOf scores gs g = [] →
      pickLoop scores gs gl = none := by
  intro gl
  induction gl with
  | nil =>
    intro g h
    simp at h
  | cons g' rest ih =>
    intro g hg hempty
    rcases List.mem_cons.mp hg with h | h
    · subst h
      simp only [pickLoop]
      rw [hempty]
      rfl
    · simp only [pickLoop]
      cases hrm : reduceMax (groupOf scores gs g') with
      | none => rfl
      | some m =>
        rw [ih g h hempty]
        rfl

theorem flatMap_map_succ (f : ℕ → List ImageScore) (l : List ℕ) :
    (l.map Nat.succ).flatMap f = l.flatMap (fun g => f (g + 1)) := by
  induction l with
  | nil => rfl
  | cons a l ih => simp [List.map_cons, List.flatMap_cons, ih]

theorem groups_partition : ∀ (K : ℕ) (l : List ImageScore) (gs : ℕ),
    l.length ≤ K * gs →
    (List.range K).flatMap (fun g => (l.drop (g * gs)).take gs) = l := by
  intro K
  induction K with
  | zero =>
    intro l gs h
    simp only [Nat.zero_mul, Nat.le_zero] at h
    rw [List.length_eq_zero.mp h]
    rfl
  | succ K ih =>
    intro l gs h
    rw [List.range_succ_eq_map, List.flatMap_cons, flatMap_map_succ]
    have hfun : (fun g => (l.drop ((g + 1) * gs)).take gs) =
        (fun g => (((l.drop gs).drop (g * gs)).take gs)) := by
      funext g
      rw [List.drop_drop]
      congr 2
      ring
    have hmul : (K + 1) * gs = K * gs + gs := by ring
    simp only [Nat.zero_mul, List.drop_zero]
    rw [show (fun g => (l.drop (Nat.succ g * gs)).take gs) =
        (fun g => (l.drop ((g + 1) * gs)).take gs) from rfl, hfun,
      ih (l.drop gs) gs (by rw [List.length_drop]; omega)]
    exact List.take_append_drop gs l

/-- C6 amended: with `K > 0` groups of `ceil(count/K)` the routine
partitions the scored list into `K` contiguous groups whose
concatenation is the whole list, every group except possibly the last
having exactly `ceil(count/K)` elements; *when every one of the `K`
groups is non-empty* (equivalently `(K−1)·ceil(count/K) < count`) it
returns exactly `K` selections in group order, each the
highest-scoring member of its group; but when the group shape leaves an
empty group (e.g. `count` < `K`, or `count = 5, K = 4`) the reduce of
the empty group throws and no selection list is produced. -/
theorem fixed_count_selection_amended (scores : List ImageScore) (numImages : ℕ)
    (hK : 0 < numImages) (hne : scores ≠ [])
    (hnum : ∀ s ∈ scores, s.score ≠ none) :
    ((List.range numImages).flatMap
        (fun g => groupOf scores (groupSizeOf scores.length numImages) g) = scores) ∧
    ((numImages - 1) * groupSizeOf scores.length numImages < scores.length →
      (∀ g, g + 1 < numImages →
        (groupOf scores (groupSizeOf scores.length numImages) g).length =
          groupSizeOf scores.length numImages) ∧
      ∃ sel, selectBestImages scores numImages = some sel ∧ sel.length = numImages ∧
        ∀ g, g < numImages →
          ∃ m, sel[g]? = some m ∧
            m ∈ groupOf scores (groupSizeOf scores.length numImages) g ∧
            ∀ y ∈ groupOf scores (groupSizeOf scores.length numImages) g, scoreLe y m) ∧
    (scores.length ≤ (numImages - 1) * groupSizeOf scores.length numImages →
      selectBestImages scores numImages = none) := by
  have hlen0 : scores.length ≠ 0 := fun h => hne (List.length_eq_zero.mp h)
  have hceil : 0 < ⌈((scores.length : ℚ)) / ((numImages : ℕ) : ℚ)⌉ :=
    Int.ceil_pos.mpr (div_pos (by exact_mod_cast Nat.pos_of_ne_zero hlen0)
      (by exact_mod_cast hK))
  have hgspos : 1 ≤ groupSizeOf scores.length numImages := by
    unfold groupSizeOf
    omega
  have hgscast : ((groupSizeOf scores.length numImages : ℕ) : ℚ) =
      ((⌈((scores.length : ℚ)) / ((numImages : ℕ) : ℚ)⌉ : ℤ) : ℚ) := by
    unfold groupSizeOf
    exact_mod_cast congrArg (fun z : ℤ => (z : ℚ)) (Int.toNat_of_nonneg (le_of_lt hceil))
  have hKgs : scores.length ≤ numImages * groupSizeOf scores.length numImages := by
    have h2 : ((scores.length : ℚ)) / ((numImages : ℕ) : ℚ) ≤
        ((⌈((scores.length : ℚ)) / ((numImages : ℕ) : ℚ)⌉ : ℤ) : ℚ) := Int.le_ceil _
    have hKpos : (0:ℚ) < ((numImages : ℕ) : ℚ) := by exact_mod_cast hK
    have h3 : ((scores.length : ℕ) : ℚ) ≤
        ((numImages : ℕ) : ℚ) * ((groupSizeOf scores.length numImages : ℕ) : ℚ) := by
      rw [hgscast]
      calc ((scores.length : ℕ) : ℚ) =
          (((scores.length : ℕ) : ℚ) / ((numImages : ℕ) : ℚ)) * ((numImages : ℕ) : ℚ) := by
            field_simp
      _ ≤ ((⌈((scores.length : ℚ)) / ((numImages : ℕ) : ℚ)⌉ : ℤ) : ℚ) * ((numImages : ℕ) : ℚ) :=
            mul_le_mul_of_nonneg_right h2 hKpos.le
      _ = ((numImages : ℕ) : ℚ) * ((⌈((scores.length : ℚ)) / ((numImages : ℕ) : ℚ)⌉ : ℤ) : ℚ) :=
            mul_comm _ _
    exact_mod_cast h3
  refine ⟨?_, ?_, ?_⟩
  · exact groups_partition numImages scores (groupSizeOf scores.length numImages) hKgs
  · intro hlt
    have hgrouplen : ∀ g, g < numImages →
        (groupOf scores (groupSizeOf scores.length numImages) g).length =
          min (groupSizeOf scores.length numImages)
            (scores.length - g * groupSizeOf scores.length numImages) := by
      intro g _
      unfold groupOf
      rw [List.length_take, List.length_drop]
    have hmul : ∀ g, g < numImages → g * groupSizeOf scores.length numImages ≤
        (numImages - 1) * groupSizeOf scores.length numImages := by
      intro g hg
      exact Nat.mul_le_mul_right _ (by omega)
    constructor
    · intro g hg
      rw [hgrouplen g (by omega)]
      have h1 : (g + 1) * groupSizeOf scores.length numImages ≤
          (numImages - 1) * groupSizeOf scores.length numImages :=
        Nat.mul_le_mul_right _ (by omega)
      have e : (g + 1) * groupSizeOf scores.length numImages =
          g * groupSizeOf scores.length numImages + groupSizeOf scores.length numImages := by
        ring
      omega
    · have hhyp : ∀ g ∈ List.range numImages,
          groupOf scores (groupSizeOf scores.length numImages) g ≠ [] ∧
          ∀ y ∈ groupOf scores (groupSizeOf scores.length numImages) g, y.score ≠ none := by
        intro g hg
        have hglt : g < numImages := List.mem_range.mp hg
        constructor
        · apply List.length_pos.mp
          rw [hgrouplen g hglt]
          have h2 := hmul g hglt
          omega
        · intro y hy
          apply hnum
          exact List.drop_subset _ _ (List.take_subset _ _ hy)
      obtain ⟨sel, hsel, hlen, hidx⟩ := pickLoop_spec scores
        (groupSizeOf scores.length numImages) (List.range numImages) hhyp
      refine ⟨sel, hsel, by simpa using hlen, ?_⟩
      intro g hg
      exact hidx g g (List.getElem?_range hg)
  · intro hge
    have hempty : groupOf scores (groupSizeOf scores.length numImages) (numImages - 1) = [] := by
      unfold groupOf
      rw [List.drop_eq_nil_of_le hge, List.take_nil]
    exact pickLoop_none scores (groupSizeOf scores.length numImages) (List.range numImages)
      (numImages - 1) (List.mem_range.mpr (by omega)) hempty

/-- Five scored frames, all with numeric scores. -/
def cexScores : List ImageScore :=
  [⟨"1.jpg", some 0, some 0, some 1⟩, ⟨"2.jpg", some 0, some 0, some 2⟩,
   ⟨"3.jpg", some 0, some 0, some 3⟩, ⟨"4.jpg", some 0, some 0, some 4⟩,
   ⟨"5.jpg", some 0, some 0, some 5⟩]

/-- C6 counterexample: 5 frames, K = 4.  `ceil(5/4) = 2`, so the four
groups are `[s1,s2] [s3,s4] [s5] []` — the fourth group is empty and
`reduce` of an empty array throws: instead of the claimed 4 selections,
no selection list is produced at all. -/
theorem fixed_count_selection_cex : selectBestImages cexScores 4 = none := by
  have hgs : groupSizeOf 5 4 = 2 := by
    unfold groupSizeOf
    rw [show (⌈((5:ℕ) : ℚ) / ((4:ℕ) : ℚ)⌉ : ℤ) = 2 by
      rw [Int.ceil_eq_iff]
      constructor <;> norm_num]
    rfl
  unfold selectBestImages
  rw [show cexScores.length = 5 from rfl, hgs]
  decide

/-- Four scored frames used for the C6 witness. -/
def witScores : List ImageScore :=
  [⟨"a.jpg", some 0, some 0, some 1⟩, ⟨"b.jpg", some 0, some 0, some 2⟩,
   ⟨"c.jpg", some 0, some 0, some 3⟩, ⟨"d.jpg", some 0, some 0, some 4⟩]

/-- C6 witness: the amended theorem applied to 4 frames and K = 2
(every group non-empty), yielding exactly 2 selections. -/
theorem fixed_count_selection_amended_witness :
    Option.map List.length (selectBestImages witScores 2) = some 2 := by
  have hgs : groupSizeOf witScores.length 2 = 2 := by
    unfold groupSizeOf
    rw [show witScores.length = 4 from rfl,
      show (⌈((4:ℕ) : ℚ) / ((2:ℕ) : ℚ)⌉ : ℤ) = 2 by
        rw [Int.ceil_eq_iff]
        constructor <;> norm_num]
    rfl
  have hlt : (2 - 1) * groupSizeOf witScores.length 2 < witScores.length := by
    rw [hgs]
    decide
  obtain ⟨sel, h1, h2, _⟩ := ((fixed_count_selection_amended witScores 2 (by norm_num)
    (by decide) (by decide)).2.1 hlt).2
  rw [h1]
  simp [h2]

/-! ### `parseVtt` from `generate-html.ts`

Strings are processed through their character lists with explicit
models of the JavaScript primitives used by the source: `split`,
`trim`, `includes`, `parseInt`, `parseFloat` and
`String.prototype.replace` (first occurrence).  `parseInt`/`parseFloat`
are modelled in their decimal form (hexadecimal prefixes and `Infinity`
do not occur in timestamp fields).  A thrown `TypeError` (the
`s.replace` call on `undefined` when a timestamp token has no colon) is
modelled by `none` at the document level. -/

/-- JavaScript whitespace test for the characters occurring here. -/
def jsIsWs (c : Char) : Bool := c == ' ' || c == '\t' || c == '\n' || c == '\r'

/-- Fuelled splitter implementing `String.prototype.split` with a
non-empty separator; fuel equal to the input length always suffices
(each step consumes at least one character, and an exhausted tail is
emitted unchanged). -/
def jsSplitGo (sep : List Char) : ℕ → List Char → List Char → List (List Char)
  | 0, l, acc => [acc.reverse ++ l]
  | fuel + 1, l, acc =>
    match l with
    | [] => [acc.reverse]
    | c :: cs =>
      if sep.isPrefixOf (c :: cs) then
        acc.reverse :: jsSplitGo sep fuel ((c :: cs).drop sep.length) []
      else jsSplitGo sep fuel cs (c :: acc)

/-- `s.split(sep)` for a non-empty separator (the only case used). -/
def jsSplit (sep : String) (s : String) : List String :=
  (jsSplitGo sep.data s.data.length s.data []).map String.mk

/-- Substring occurrence test on character lists. -/
def listIsInfixOf (needle : List Char) : List Char → Bool
  | [] => needle.isPrefixOf []
  | c :: cs => needle.isPrefixOf (c :: cs) || listIsInfixOf needle cs

/-- `line.includes("-->")`. -/
def hasArrow (s : String) : Bool := listIsInfixOf ("-->".data) s.data

/-- `s.trim()`. -/
def jsTrim (s : String) : String :=
  String.mk (((s.data.dropWhile jsIsWs).reverse.dropWhile jsIsWs).reverse)

/-- Value of a list of decimal digit characters. -/
def digitsVal (l : List Char) : ℕ := l.foldl (fun a c => 10 * a + (c.toNat - 48)) 0

/-- Optional sign prefix: `-` / `+` / absent. -/
def parseSign (l : List Char) : ℤ × List Char :=
  match l with
  | c :: rest => if c = '-' then (-1, rest) else if c = '+' then (1, rest) else (1, l)
  | [] => (1, [])

/-- `parseInt(s)` (decimal): skip whitespace, optional sign, leading
digits; no digits gives NaN (`none`). -/
def parseIntJs (s : String) : Option ℤ :=
  if (parseSign (s.data.dropWhile jsIsWs)).2.takeWhile Char.isDigit = [] then none
  else some ((parseSign (s.data.dropWhile jsIsWs)).1 *
    (digitsVal ((parseSign (s.data.dropWhile jsIsWs)).2.takeWhile Char.isDigit) : ℤ))

/-- Exponent suffix accepted by `parseFloat` (`e`/`E`, optional sign,
digits); anything else contributes a factor of 1. -/
def expFactor (l : List Char) : ℚ :=
  match l with
  | c :: rest =>
    if c = 'e' ∨ c = 'E' then
      match rest with
      | c2 :: r3 =>
        if c2 = '-' then
          if r3.takeWhile Char.isDigit = [] then 1
          else (10 : ℚ) ^ (-(digitsVal (r3.takeWhile Char.isDigit) : ℤ))
        else if c2 = '+' then
          if r3.takeWhile Char.isDigit = [] then 1
          else (10 : ℚ) ^ ((digitsVal (r3.takeWhile Char.isDigit) : ℤ))
        else
          if rest.takeWhile Char.isDigit = [] then 1
          else (10 : ℚ) ^ ((digitsVal (rest.takeWhile Char.isDigit) : ℤ))
      | [] => 1
    else 1
  | [] => 1

/-- The body of `parseFloat` after sign handling: integer digits,
optional fraction, optional exponent; NaN (`none`) when no digit is
found at all. -/
def parseFloatBody (sign : ℚ) (body : List Char) : Option ℚ :=
  match body.dropWhile Char.isDigit with
  | c :: r2 =>
    if c = '.' then
      if body.takeWhile Char.isDigit = [] ∧ r2.takeWhile Char.isDigit = [] then none
      else some (sign * ((digitsVal (body.takeWhile Char.isDigit) : ℚ) +
        (digitsVal (r2.takeWhile Char.isDigit) : ℚ) / 10 ^ (r2.takeWhile Char.isDigit).length) *
        expFactor (r2.dropWhile Char.isDigit))
    else if body.takeWhile Char.isDigit = [] then none
    else some (sign * (digitsVal (body.takeWhile Char.isDigit) : ℚ) * expFactor (c :: r2))
  | [] =>
    if body.takeWhile Char.isDigit = [] then none
    else some (sign * (digitsVal (body.takeWhile Char.isDigit) : ℚ))

/-- `parseFloat(s)` (decimal). -/
def parseFloatJs (s : String) : Option ℚ :=
  parseFloatBody (((parseSign (s.data.dropWhile jsIsWs)).1 : ℤ) : ℚ)
    (parseSign (s.data.dropWhile jsIsWs)).2

/-- Joining with a comma separator, used to model first-occurrence
`replace`. -/
def joinWithComma : List String → String
  | [] => ""
  | [x] => x
  | x :: xs => x ++ "," ++ joinWithComma xs

/-- `s.replace(",", ".")` — only the first occurrence is replaced. -/
def replaceCommaDot (s : String) : String :=
  match jsSplit "," s with
  | a :: b :: rest => a ++ "." ++ joinWithComma (b :: rest)
  | _ => s

/-- `parseInt(x) * k` inside a JavaScript numeric expression. -/
def jsMulZ (a : Option ℤ) (k : ℤ) : Option ℚ :=
  match a with
  | some n => some ((n : ℚ) * (k : ℚ))
  | none => none

/-- One timestamp token: 3 colon-delimited fields are read as
`hours:minutes:seconds`, any other count of at least 2 as
`minutes:seconds` (from the first two fields); both `.` and `,` are
accepted as the fractional separator of the seconds field.  A token
with fewer than 2 fields throws (`s.replace` on `undefined`):
`none`. -/
def parseTokenJs (t : String) : Option (Option ℚ) :=
  match jsSplit ":" (jsTrim t) with
  | [h, m, s] =>
    some (jsAdd (jsAdd (jsMulZ (parseIntJs h) 3600) (jsMulZ (parseIntJs m) 60))
      (parseFloatJs (replaceCommaDot s)))
  | m :: s :: _ =>
    some (jsAdd (jsMulZ (parseIntJs m) 60) (parseFloatJs (replaceCommaDot s)))
  | _ => none

/-- `parts.map(parse)` over `Option`: a throw in any element aborts. -/
def optMapList (f : String → Option (Option ℚ)) : List String → Option (List (Option ℚ))
  | [] => some []
  | x :: xs =>
    match f x with
    | none => none
    | some v => (optMapList f xs).map (fun vs => v :: vs)

/-- `const [start, end] = line.split("-->").map(parse)` on the trimmed
line.  A line containing the separator always splits into at least two
parts, so the final catch-all is unreachable from `parseLinesF`. -/
def parseCueTimes (l : String) : Option (Option ℚ × Option ℚ) :=
  match optMapList parseTokenJs (jsSplit "-->" (jsTrim l)) with
  | none => none
  | some (a :: b :: _) => some (a, b)
  | some _ => none

structure VttCue where
  startTime : Option ℚ
  endTime : Option ℚ
  text : String
deriving DecidableEq

/-- Inner-loop condition: a non-blank line that is not a timestamp
line. -/
def isTextLine (l : String) : Bool := decide (jsTrim l ≠ "") && !hasArrow l

/-- `text += lines[i].trim() + " "`. -/
def textConcat (ls : List String) : String :=
  ls.foldl (fun acc l => acc ++ jsTrim l ++ " ") ""

/-- The main cue loop of `parseVtt`, fuelled by the number of remaining
lines (each step consumes at least one line, so this fuel always
suffices; with fuel 0 the list is already empty). -/
def parseLinesF : ℕ → List String → Option (List VttCue)
  | 0, _ => some []
  | _ + 1, [] => some []
  | fuel + 1, l :: rest =>
    if hasArrow (jsTrim l) then
      match parseCueTimes l with
      | none => none
      | some (s, e) =>
        match parseLinesF fuel (rest.dropWhile isTextLine) with
        | none => none
        | some cues =>
          some (if jsTrim (textConcat (rest.takeWhile isTextLine)) ≠ "" then
            ⟨s, e, jsTrim (textConcat (rest.takeWhile isTextLine))⟩ :: cues else cues)
    else parseLinesF fuel rest

/-- `parseVtt` from `generate-html.ts`: split into lines, skip the
header (lines before the first one containing the separator), then run
the cue loop.  The result is `none` when the loop throws. -/
def parseVtt (doc : String) : Option (List VttCue) :=
  parseLinesF ((jsSplit "\n" doc).dropWhile (fun l => !hasArrow l)).length
    ((jsSplit "\n" doc).dropWhile (fun l => !hasArrow l))

theorem digit_not_ws (c : Char) (h : Char.isDigit c = true) : jsIsWs c = false := by
  unfold jsIsWs
  by_contra habs
  simp only [Bool.or_eq_true, beq_iff_eq, Bool.not_eq_false] at habs
  rcases habs with ((h1 | h1) | h1) | h1 <;> subst h1 <;> exact absurd h (by decide)

theorem digit_ne_char (c d : Char) (h : Char.isDigit c = true)
    (hd : Char.isDigit d = false) : c ≠ d := by
  intro he
  subst he
  rw [h] at hd
  cases hd

theorem all_digit_takeWhile (l : List Char) (h : ∀ c ∈ l, Char.isDigit c = true) :
    l.takeWhile Char.isDigit = l := by
  induction l with
  | nil => rfl
  | cons c rest ih =>
    rw [List.takeWhile_cons, if_pos (by rw [h c (List.mem_cons_self c rest)])]
    rw [ih (fun d hd => h d (List.mem_cons_of_mem c hd))]

theorem all_digit_dropWhile (l : List Char) (h : ∀ c ∈ l, Char.isDigit c = true) :
    l.dropWhile Char.isDigit = [] := by
  induction l with
  | nil => rfl
  | cons c rest ih =>
    rw [List.dropWhile_cons, if_pos (by rw [h c (List.mem_cons_self c rest)])]
    exact ih (fun d hd => h d (List.mem_cons_of_mem c hd))

theorem dropWhile_ws_of_head (l : List Char)
    (h : ∀ c, l.head? = some c → jsIsWs c = false) : l.dropWhile jsIsWs = l := by
  cases l with
  | nil => rfl
  | cons c rest => rw [List.dropWhile_cons, if_neg (by rw [h c rfl]; simp)]

theorem parseSign_of_head (l : List Char)
    (h : ∀ c, l.head? = some c → c ≠ '-' ∧ c ≠ '+') : parseSign l = (1, l) := by
  cases l with
  | nil => rfl
  | cons c rest =>
    show (if c = '-' then ((-1 : ℤ), rest) else if c = '+' then ((1 : ℤ), rest)
      else ((1 : ℤ), c :: rest)) = (1, c :: rest)
    rw [if_neg (h c rfl).1, if_neg (h c rfl).2]

theorem parseIntJs_digits (s : String) (hne : s.data ≠ [])
    (h : ∀ c ∈ s.data, Char.isDigit c = true) :
    parseIntJs s = some ((digitsVal s.data : ℤ)) := by
  have hd : ∀ c, s.data.head? = some c → Char.isDigit c = true := by
    intro c hc
    cases hl : s.data with
    | nil => rw [hl] at hc; cases hc
    | cons a rest =>
      rw [hl] at hc
      simp only [List.head?_cons, Option.some.injEq] at hc
      subst hc
      exact h a (by rw [hl]; exact List.mem_cons_self a rest)
  unfold parseIntJs
  rw [dropWhile_ws_of_head s.data (fun c hc => digit_not_ws c (hd c hc)),
    parseSign_of_head s.data (fun c hc =>
      ⟨digit_ne_char c '-' (hd c hc) (by decide), digit_ne_char c '+' (hd c hc) (by decide)⟩)]
  show (if s.data.takeWhile Char.isDigit = [] then none
    else some ((1 : ℤ) * (digitsVal (s.data.takeWhile Char.isDigit) : ℤ))) = _
  rw [all_digit_takeWhile s.data h, if_neg hne, one_mul]

theorem parseFloatJs_digits (s : String) (hne : s.data ≠ [])
    (h : ∀ c ∈ s.data, Char.isDigit c = true) :
    parseFloatJs s = some ((digitsVal s.data : ℚ)) := by
  have hd : ∀ c, s.data.head? = some c → Char.isDigit c = true := by
    intro c hc
    cases hl : s.data with
    | nil => rw [hl] at hc; cases hc
    | cons a rest =>
      rw [hl] at hc
      simp only [List.head?_cons, Option.some.injEq] at hc
      subst hc
      exact h a (by rw [hl]; exact List.mem_cons_self a rest)
  unfold parseFloatJs
  rw [dropWhile_ws_of_head s.data (fun c hc => digit_not_ws c (hd c hc)),
    parseSign_of_head s.data (fun c hc =>
      ⟨digit_ne_char c '-' (hd c hc) (by decide), digit_ne_char c '+' (hd c hc) (by decide)⟩)]
  show parseFloatBody (((1 : ℤ) : ℚ)) s.data = _
  unfold parseFloatBody
  rw [all_digit_dropWhile s.data h]
  show (if s.data.takeWhile Char.isDigit = [] then none
    else some ((((1:ℤ) : ℚ)) * (digitsVal (s.data.takeWhile Char.isDigit) : ℚ))) = _
  rw [all_digit_takeWhile s.data h, if_neg hne]
  norm_num

theorem takeWhile_append_dot (intds fracds : List Char)
    (h : ∀ c ∈ intds, Char.isDigit c = true) :
    (intds ++ '.' :: fracds).takeWhile Char.isDigit = intds := by
  induction intds with
  | nil => rw [List.nil_append, List.takeWhile_cons, if_neg (by decide)]
  | cons c rest ih =>
    rw [List.cons_append, List.takeWhile_cons, if_pos (by rw [h c (List.mem_cons_self c rest)])]
    rw [ih (fun d hd => h d (List.mem_cons_of_mem c hd))]

theorem dropWhile_append_dot (intds fracds : List Char)
    (h : ∀ c ∈ intds, Char.isDigit c = true) :
    (intds ++ '.' :: fracds).dropWhile Char.isDigit = '.' :: fracds := by
  induction intds with
  | nil => rw [List.nil_append, List.dropWhile_cons, if_neg (by decide)]
  | cons c rest ih =>
    rw [List.cons_append, List.dropWhile_cons, if_pos (by rw [h c (List.mem_cons_self c rest)])]
    exact ih (fun d hd => h d (List.mem_cons_of_mem c hd))

/-- `parseFloat` on a `digits.digits` mantissa with no exponent. -/
theorem parseFloatJs_frac (intds fracds : List Char) (hne : intds ≠ [])
    (hi : ∀ c ∈ intds, Char.isDigit c = true) (hf : ∀ c ∈ fracds, Char.isDigit c = true) :
    parseFloatJs (String.mk (intds ++ '.' :: fracds)) =
      some ((digitsVal intds : ℚ) + (digitsVal fracds : ℚ) / 10 ^ fracds.length) := by
  have hdata : (String.mk (intds ++ '.' :: fracds)).data = intds ++ '.' :: fracds := rfl
  have hd : ∀ c, (intds ++ '.' :: fracds).head? = some c → Char.isDigit c = true ∨ c = '.' := by
    intro c hc
    cases hl : intds with
    | nil =>
      rw [hl] at hc
      simp only [List.nil_append, List.head?_cons, Option.some.injEq] at hc
      exact Or.inr hc.symm
    | cons a rest =>
      rw [hl] at hc
      simp only [List.cons_append, List.head?_cons, Option.some.injEq] at hc
      subst hc
      exact Or.inl (hi a (by rw [hl]; exact List.mem_cons_self a rest))
  have hnws : ∀ c, (intds ++ '.' :: fracds).head? = some c → jsIsWs c = false := by
    intro c hc
    rcases hd c hc with h1 | h1
    · exact digit_not_ws c h1
    · subst h1
      decide
  have hnsign : ∀ c, (intds ++ '.' :: fracds).head? = some c → c ≠ '-' ∧ c ≠ '+' := by
    intro c hc
    rcases hd c hc with h1 | h1
    · exact ⟨digit_ne_char c '-' h1 (by decide), digit_ne_char c '+' h1 (by decide)⟩
    · subst h1
      exact ⟨by decide, by decide⟩
  unfold parseFloatJs
  rw [hdata, dropWhile_ws_of_head _ hnws, parseSign_of_head _ hnsign]
  show parseFloatBody (((1 : ℤ) : ℚ)) (intds ++ '.' :: fracds) = _
  unfold parseFloatBody
  rw [dropWhile_append_dot intds fracds hi]
  show (if ('.' : Char) = '.' then _ else _) = _
  rw [if_pos rfl, takeWhile_append_dot intds fracds hi, all_digit_takeWhile fracds hf,
    all_digit_dropWhile fracds hf]
  rw [if_neg (by intro hand; exact hne hand.1)]
  show some ((((1:ℤ) : ℚ)) * ((digitsVal intds : ℚ) +
    (digitsVal fracds : ℚ) / 10 ^ fracds.length) * expFactor []) = _
  norm_num [expFactor]

/-- A non-empty string of decimal digits. -/
def isDigitString (s : String) : Bool := decide (s.data ≠ []) && s.data.all Char.isDigit

theorem isDigitString_ne (s : String) (h : isDigitString s = true) : s.data ≠ [] := by
  unfold isDigitString at h
  simp only [Bool.and_eq_true, decide_eq_true_eq] at h
  exact h.1

theorem isDigitString_all (s : String) (h : isDigitString s = true) :
    ∀ c ∈ s.data, Char.isDigit c = true := by
  unfold isDigitString at h
  simp only [Bool.and_eq_true, decide_eq_true_eq, List.all_eq_true] at h
  exact h.2

theorem replaceCommaDot_of_noComma (s : String) (h : jsSplit "," s = [s]) :
    replaceCommaDot s = s := by
  unfold replaceCommaDot
  rw [h]

/-- A timestamp token with three colon-delimited digit fields converts
as `hours:minutes:seconds`. -/
theorem parseTokenJs_hms (t h m s : String)
    (hsplit : jsSplit ":" (jsTrim t) = [h, m, s])
    (hh : isDigitString h = true) (hm : isDigitString m = true) (hs : isDigitString s = true)
    (hnc : jsSplit "," s = [s]) :
    parseTokenJs t = some (some ((digitsVal h.data : ℚ) * 3600 +
      (digitsVal m.data : ℚ) * 60 + (digitsVal s.data : ℚ))) := by
  unfold parseTokenJs
  rw [hsplit]
  show some (jsAdd (jsAdd (jsMulZ (parseIntJs h) 3600) (jsMulZ (parseIntJs m) 60))
    (parseFloatJs (replaceCommaDot s))) = _
  rw [replaceCommaDot_of_noComma s hnc,
    parseIntJs_digits h (isDigitString_ne h hh) (isDigitString_all h hh),
    parseIntJs_digits m (isDigitString_ne m hm) (isDigitString_all m hm),
    parseFloatJs_digits s (isDigitString_ne s hs) (isDigitString_all s hs)]
  show some (some (((digitsVal h.data : ℤ) : ℚ) * ((3600 : ℤ) : ℚ) +
    ((digitsVal m.data : ℤ) : ℚ) * ((60 : ℤ) : ℚ) + (digitsVal s.data : ℚ))) = _
  norm_num

/-- A timestamp token with two colon-delimited digit fields converts as
`minutes:seconds`. -/
theorem parseTokenJs_ms (t m s : String)
    (hsplit : jsSplit ":" (jsTrim t) = [m, s])
    (hm : isDigitString m = true) (hs : isDigitString s = true)
    (hnc : jsSplit "," s = [s]) :
    parseTokenJs t = some (some ((digitsVal m.data : ℚ) * 60 + (digitsVal s.data : ℚ))) := by
  unfold parseTokenJs
  rw [hsplit]
  show some (jsAdd (jsMulZ (parseIntJs m) 60) (parseFloatJs (replaceCommaDot s))) = _
  rw [replaceCommaDot_of_noComma s hnc,
    parseIntJs_digits m (isDigitString_ne m hm) (isDigitString_all m hm),
    parseFloatJs_digits s (isDigitString_ne s hs) (isDigitString_all s hs)]
  show some (some (((digitsVal m.data : ℤ) : ℚ) * ((60 : ℤ) : ℚ) +
    (digitsVal s.data : ℚ))) = _
  norm_num

theorem parseFloatJs_01000 : parseFloatJs "01.000" = some 1 := by
  have h := parseFloatJs_frac ['0', '1'] ['0', '0', '0'] (by decide) (by decide) (by decide)
  rw [show String.mk (['0', '1'] ++ '.' :: ['0', '0', '0']) = "01.000" from rfl] at h
  rw [h, show digitsVal ['0', '1'] = 1 from by decide,
    show digitsVal ['0', '0', '0'] = 0 from by decide]
  norm_num

theorem parseFloatJs_03500 : parseFloatJs "03.500" = some (7 / 2) := by
  have h := parseFloatJs_frac ['0', '3'] ['5', '0', '0'] (by decide) (by decide) (by decide)
  rw [show String.mk (['0', '3'] ++ '.' :: ['5', '0', '0']) = "03.500" from rfl] at h
  rw [h, show digitsVal ['0', '3'] = 3 from by decide,
    show digitsVal ['5', '0', '0'] = 500 from by decide]
  norm_num

theorem parseFloatJs_05000 : parseFloatJs "05.000" = some 5 := by
  have h := parseFloatJs_frac ['0', '5'] ['0', '0', '0'] (by decide) (by decide) (by decide)
  rw [show String.mk (['0', '5'] ++ '.' :: ['0', '0', '0']) = "05.000" from rfl] at h
  rw [h, show digitsVal ['0', '5'] = 5 from by decide,
    show digitsVal ['0', '0', '0'] = 0 from by decide]
  norm_num

theorem parseTokenJs_t1 : parseTokenJs "00:00:01.000 " = some (some 1) := by
  unfold parseTokenJs
  rw [show jsSplit ":" (jsTrim "00:00:01.000 ") = ["00", "00", "01.000"] from by decide]
  show some (jsAdd (jsAdd (jsMulZ (parseIntJs "00") 3600) (jsMulZ (parseIntJs "00") 60))
    (parseFloatJs (replaceCommaDot "01.000"))) = _
  rw [show replaceCommaDot "01.000" = "01.000" from by decide,
    show parseIntJs "00" = some 0 from by decide, parseFloatJs_01000]
  show some (some (((0 : ℤ) : ℚ) * ((3600 : ℤ) : ℚ) + ((0 : ℤ) : ℚ) * ((60 : ℤ) : ℚ) + 1)) = _
  norm_num

theorem parseTokenJs_t2 : parseTokenJs " 00:00:03.500" = some (some (7 / 2)) := by
  unfold parseTokenJs
  rw [show jsSplit ":" (jsTrim " 00:00:03.500") = ["00", "00", "03.500"] from by decide]
  show some (jsAdd (jsAdd (jsMulZ (parseIntJs "00") 3600) (jsMulZ (parseIntJs "00") 60))
    (parseFloatJs (replaceCommaDot "03.500"))) = _
  rw [show replaceCommaDot "03.500" = "03.500" from by decide,
    show parseIntJs "00" = some 0 from by decide, parseFloatJs_03500]
  show some (some (((0 : ℤ) : ℚ) * ((3600 : ℤ) : ℚ) + ((0 : ℤ) : ℚ) * ((60 : ℤ) : ℚ) + 7 / 2)) = _
  norm_num

theorem parseTokenJs_t5 : parseTokenJs "00:00:05.000 " = some (some 5) := by
  unfold parseTokenJs
  rw [show jsSplit ":" (jsTrim "00:00:05.000 ") = ["00", "00", "05.000"] from by decide]
  show some (jsAdd (jsAdd (jsMulZ (parseIntJs "00") 3600) (jsMulZ (parseIntJs "00") 60))
    (parseFloatJs (replaceCommaDot "05.000"))) = _
  rw [show replaceCommaDot "05.000" = "05.000" from by decide,
    show parseIntJs "00" = some 0 from by decide, parseFloatJs_05000]
  show some (some (((0 : ℤ) : ℚ) * ((3600 : ℤ) : ℚ) + ((0 : ℤ) : ℚ) * ((60 : ℤ) : ℚ) + 5)) = _
  norm_num

theorem parseTokenJs_t1b : parseTokenJs " 00:00:01.000" = some (some 1) := by
  unfold parseTokenJs
  rw [show jsSplit ":" (jsTrim " 00:00:01.000") = ["00", "00", "01.000"] from by decide]
  show some (jsAdd (jsAdd (jsMulZ (parseIntJs "00") 3600) (jsMulZ (parseIntJs "00") 60))
    (parseFloatJs (replaceCommaDot "01.000"))) = _
  rw [show replaceCommaDot "01.000" = "01.000" from by decide,
    show parseIntJs "00" = some 0 from by decide, parseFloatJs_01000]
  show some (some (((0 : ℤ) : ℚ) * ((3600 : ℤ) : ℚ) + ((0 : ℤ) : ℚ) * ((60 : ℤ) : ℚ) + 1)) = _
  norm_num

theorem parseCueTimes_hello :
    parseCueTimes "00:00:01.000 --> 00:00:03.500" = some (some 1, some (7 / 2)) := by
  unfold parseCueTimes
  rw [show jsSplit "-->" (jsTrim "00:00:01.000 --> 00:00:03.500") =
    ["00:00:01.000 ", " 00:00:03.500"] from by decide]
  simp only [optMapList]
  rw [parseTokenJs_t1, parseTokenJs_t2]
  rfl

theorem parseCueTimes_rev :
    parseCueTimes "00:00:05.000 --> 00:00:01.000" = some (some 5, some 1) := by
  unfold parseCueTimes
  rw [show jsSplit "-->" (jsTrim "00:00:05.000 --> 00:00:01.000") =
    ["00:00:05.000 ", " 00:00:01.000"] from by decide]
  simp only [optMapList]
  rw [parseTokenJs_t5, parseTokenJs_t1b]
  rfl

theorem parseVtt_hello :
    parseVtt "00:00:01.000 --> 00:00:03.500\nHello world" =
      some [⟨some 1, some (7 / 2), "Hello world"⟩] := by
  unfold parseVtt
  rw [show ((jsSplit "\n" "00:00:01.000 --> 00:00:03.500\nHello world").dropWhile
      (fun l => !hasArrow l)) = ["00:00:01.000 --> 00:00:03.500", "Hello world"] from by decide]
  show parseLinesF 2 ["00:00:01.000 --> 00:00:03.500", "Hello world"] = _
  unfold parseLinesF
  rw [if_pos (by decide : hasArrow (jsTrim "00:00:01.000 --> 00:00:03.500") = true),
    parseCueTimes_hello]
  rw [show (["Hello world"].dropWhile isTextLine) = [] from by decide]
  rw [show (["Hello world"].takeWhile isTextLine) = ["Hello world"] from by decide]
  show some (if jsTrim (textConcat ["Hello world"]) ≠ "" then _ else _) = _
  rw [show jsTrim (textConcat ["Hello world"]) = "Hello world" from by decide]
  norm_num
  decide

theorem parseVtt_rev :
    parseVtt "00:00:05.000 --> 00:00:01.000\nHi" = some [⟨some 5, some 1, "Hi"⟩] := by
  unfold parseVtt
  rw [show ((jsSplit "\n" "00:00:05.000 --> 00:00:01.000\nHi").dropWhile
      (fun l => !hasArrow l)) = ["00:00:05.000 --> 00:00:01.000", "Hi"] from by decide]
  show parseLinesF 2 ["00:00:05.000 --> 00:00:01.000", "Hi"] = _
  unfold parseLinesF
  rw [if_pos (by decide : hasArrow (jsTrim "00:00:05.000 --> 00:00:01.000") = true),
    parseCueTimes_rev]
  rw [show (["Hi"].dropWhile isTextLine) = [] from by decide]
  rw [show (["Hi"].takeWhile isTextLine) = ["Hi"] from by decide]
  show some (if jsTrim (textConcat ["Hi"]) ≠ "" then _ else _) = _
  rw [show jsTrim (textConcat ["Hi"]) = "Hi" from by decide]
  norm_num
  decide

/-- C8: the timestamp parser round-trips the document
`00:00:01.000 --> 00:00:03.500` + `Hello world` into exactly one cue
with start 1, end 3.5 and text "Hello world"; in general, a timestamp
token whose trimmed text splits into 3 colon-delimited digit fields is
converted as `hours:minutes:seconds`, one splitting into 2 fields as
`minutes:seconds`, and `,` is accepted as the fractional separator
(e.g. `00:00:03,500` parses to 3.5). -/
theorem vtt_parse_spec :
    parseVtt "00:00:01.000 --> 00:00:03.500\nHello world" =
      some [⟨some 1, some (7 / 2), "Hello world"⟩] ∧
    (∀ t h m s : String, jsSplit ":" (jsTrim t) = [h, m, s] →
      isDigitString h = true → isDigitString m = true → isDigitString s = true →
      jsSplit "," s = [s] →
      parseTokenJs t = some (some ((digitsVal h.data : ℚ) * 3600 +
        (digitsVal m.data : ℚ) * 60 + (digitsVal s.data : ℚ)))) ∧
    (∀ t m s : String, jsSplit ":" (jsTrim t) = [m, s] →
      isDigitString m = true → isDigitString s = true → jsSplit "," s = [s] →
      parseTokenJs t = some (some ((digitsVal m.data : ℚ) * 60 + (digitsVal s.data : ℚ)))) ∧
    parseTokenJs "00:00:03,500" = some (some (7 / 2)) := by
  refine ⟨parseVtt_hello, parseTokenJs_hms, parseTokenJs_ms, ?_⟩
  unfold parseTokenJs
  rw [show jsSplit ":" (jsTrim "00:00:03,500") = ["00", "00", "03,500"] from by decide]
  show some (jsAdd (jsAdd (jsMulZ (parseIntJs "00") 3600) (jsMulZ (parseIntJs "00") 60))
    (parseFloatJs (replaceCommaDot "03,500"))) = _
  rw [show replaceCommaDot "03,500" = "03.500" from by decide,
    show parseIntJs "00" = some 0 from by decide, parseFloatJs_03500]
  show some (some (((0 : ℤ) : ℚ) * ((3600 : ℤ) : ℚ) + ((0 : ℤ) : ℚ) * ((60 : ℤ) : ℚ) + 7 / 2)) = _
  norm_num

/-- C8 witness: the 2-field conversion applied to the token `5:30`. -/
theorem vtt_parse_spec_witness :
    parseTokenJs "5:30" =
      some (some ((digitsVal "5".data : ℚ) * 60 + (digitsVal "30".data : ℚ))) :=
  vtt_parse_spec.2.2.1 "5:30" "5" "30" (by decide) (by decide) (by decide) (by decide)

/-- Every produced cue's time pair is the parsed pair of some line of
the input: the parser copies the two sides of the separator verbatim
and never compares or repairs them. -/
theorem parseLinesF_origin : ∀ (fuel : ℕ) (ls : List String) (cues : List VttCue),
    parseLinesF fuel ls = some cues → ∀ cue ∈ cues,
    ∃ l ∈ ls, parseCueTimes l = some (cue.startTime, cue.endTime) := by
  intro fuel
  induction fuel with
  | zero =>
    intro ls cues h cue hcue
    simp only [parseLinesF, Option.some.injEq] at h
    rw [← h] at hcue
    simp at hcue
  | succ fuel ih =>
    intro ls cues h cue hcue
    cases ls with
    | nil =>
      simp only [parseLinesF, Option.some.injEq] at h
      rw [← h] at hcue
      simp at hcue
    | cons l rest =>
      unfold parseLinesF at h
      by_cases ha : hasArrow (jsTrim l) = true
      · rw [if_pos ha] at h
        cases hct : parseCueTimes l with
        | none =>
          rw [hct] at h
          simp at h
        | some se =>
          obtain ⟨s, e⟩ := se
          rw [hct] at h
          cases hrec : parseLinesF fuel (rest.dropWhile isTextLine) with
          | none =>
            rw [hrec] at h
            simp at h
          | some cues' =>
            rw [hrec] at h
            simp only [Option.some.injEq] at h
            by_cases htext : jsTrim (textConcat (rest.takeWhile isTextLine)) ≠ ""
            · rw [if_pos htext] at h
              subst h
              rcases List.mem_cons.mp hcue with hc | hc
              · refine ⟨l, List.mem_cons_self l rest, ?_⟩
                rw [hc]
                exact hct
              · obtain ⟨l', hl', hpair⟩ := ih (rest.dropWhile isTextLine) cues' hrec cue hc
                exact ⟨l', List.mem_cons_of_mem l ((List.dropWhile_sublist _).subset hl'), hpair⟩
            · rw [if_neg htext] at h
              subst h
              obtain ⟨l', hl', hpair⟩ := ih (rest.dropWhile isTextLine) cues' hrec cue hcue
              exact ⟨l', List.mem_cons_of_mem l ((List.dropWhile_sublist _).subset hl'), hpair⟩
      · rw [if_neg ha] at h
        obtain ⟨l', hl', hpair⟩ := ih rest cues h cue hcue
        exact ⟨l', List.mem_cons_of_mem l hl', hpair⟩

/-- C9 amended: `start ≤ end` is not enforced by the parser — each
cue's pair is taken verbatim from its line — so the invariant holds
exactly when every timestamp line of the document parses to an ordered
pair. -/
theorem parser_start_le_end_conditional (doc : String) (cues : List VttCue)
    (hp : parseVtt doc = some cues)
    (hord : ∀ l ∈ jsSplit "\n" doc, ∀ a b : ℚ,
      parseCueTimes l = some (some a, some b) → a ≤ b) :
    ∀ cue ∈ cues, ∀ a b : ℚ, cue.startTime = some a → cue.endTime = some b → a ≤ b := by
  intro cue hcue a b hsa hsb
  unfold parseVtt at hp
  obtain ⟨l, hl, hct⟩ := parseLinesF_origin _ _ cues hp cue hcue
  have hl' : l ∈ jsSplit "\n" doc := (List.dropWhile_sublist _).subset hl
  apply hord l hl' a b
  rw [hsa, hsb] at hct
  exact hct

/-- C9 counterexample: a document whose only cue has end time strictly
before its start time parses without complaint into a cue with
start = 5, end = 1 — the claimed invariant `start ≤ end` fails. -/
theorem parser_start_le_end_cex :
    parseVtt "00:00:05.000 --> 00:00:01.000\nHi" = some [⟨some 5, some 1, "Hi"⟩] ∧
    (1 : ℚ) < 5 :=
  ⟨parseVtt_rev, by norm_num⟩

/-- C9 witness: the amended theorem applied to a well-ordered document. -/
theorem parser_start_le_end_witness :
    parseVtt "00:00:01.000 --> 00:00:03.500\nHello world" =
      some [⟨some 1, some (7 / 2), "Hello world"⟩] ∧ (1 : ℚ) ≤ 7 / 2 := by
  refine ⟨parseVtt_hello, ?_⟩
  refine parser_start_le_end_conditional "00:00:01.000 --> 00:00:03.500\nHello world"
    [⟨some 1, some (7 / 2), "Hello world"⟩] parseVtt_hello ?_
    ⟨some 1, some (7 / 2), "Hello world"⟩ (List.mem_cons_self _ _) 1 (7 / 2) rfl rfl
  intro l hl a b hct
  rw [show jsSplit "\n" "00:00:01.000 --> 00:00:03.500\nHello world" =
    ["00:00:01.000 --> 00:00:03.500", "Hello world"] from by decide] at hl
  rcases List.mem_cons.mp hl with h | h
  · subst h
    rw [parseCueTimes_hello] at hct
    simp only [Option.some.injEq, Prod.mk.injEq] at hct
    obtain ⟨h1, h2⟩ := hct
    rw [← h1, ← h2]
    norm_num
  · rcases List.mem_cons.mp h with h2 | h2
    · subst h2
      rw [show parseCueTimes "Hello world" = none from by decide] at hct
      cases hct
    · simp at h2

end VideoToPost
